import Mathlib

/-!
Verification of the sudoku solving engine of `solver.py` / `sudosolver.py`.

The two source files share an identical solving core.  Grids are embedded as
`List (List Nat)` (a cell value `0` means empty); the in-place mutation
`grid[y][x].set(v)` becomes the functional update `setCell`, and the recursive
backtracking function `solve` is embedded with explicit fuel (`solveF`); fuel
`emptyCount grid + 1` is proved sufficient, which is the termination bound of
the original recursion.
-/

namespace Sudoku

/-- Raw grid type: a list of rows of natural-number cell values, `0` meaning empty. -/
abbrev Grid := List (List Nat)

/-- Value of the cell at row `y`, column `x`; models `grid[y][x].get()`
(out-of-bounds reads yield `0`; the code only reads in bounds). -/
def cellVal (grid : Grid) (y x : Nat) : Nat := (grid.getD y []).getD x 0

/-- Functional model of the in-place write `grid[y][x].set(v)`
(out-of-bounds writes are the identity; the code only writes in bounds). -/
def setCell (grid : Grid) (y x v : Nat) : Grid := grid.set y ((grid.getD y []).set x v)

/-- Downward scan for the integer square root: the largest `k ≤ m` with `k * k ≤ n`. -/
def isqrtAux (n : Nat) : Nat → Nat
  | 0 => 0
  | k + 1 => if (k + 1) * (k + 1) ≤ n then k + 1 else isqrtAux n k

/-- Integer square root, modelling `int(math.sqrt(n))` (the two agree on the perfect
squares, the only grid sizes the data model admits). -/
def isqrt (n : Nat) : Nat := isqrtAux n n

/-- Model of `get_bound_box(coords, grid_size)`: the top row, left column and width of
the box containing `(y, x)`, computed with `box_width = int(math.sqrt(grid_size))`. -/
def get_bound_box (y x grid_size : Nat) : Nat × Nat × Nat :=
  let box_width := isqrt grid_size
  (y - y % box_width, x - x % box_width, box_width)

/-- Model of `get_peers(grid, coords)`: the union of the row values at indices other
than `x0`, the column values at rows other than `y0`, and the values of the box cells
whose row differs from `y0` and whose column differs from `x0`. -/
def get_peers (grid : Grid) (y0 x0 : Nat) : Finset Nat :=
  let rowPart := (((grid.getD y0 []).enum.filter (fun p => p.1 ≠ x0)).map (fun p => p.2)).toFinset
  let colPart := ((grid.enum.filter (fun p => p.1 ≠ y0)).map (fun p => p.2.getD x0 0)).toFinset
  let tlb := get_bound_box y0 x0 grid.length
  let boxPart := ((((List.range' tlb.1 tlb.2.2).flatMap
      (fun y => (List.range' tlb.2.1 tlb.2.2).map (fun x => (y, x)))).filter
      (fun p => p.1 ≠ y0 ∧ p.2 ≠ x0)).map (fun p => cellVal grid p.1 p.2)).toFinset
  rowPart ∪ colPart ∪ boxPart

/-- Number of columns `zip(*grid)` yields: the minimum row length (`0` for no rows). -/
def numCols (grid : Grid) : Nat := (grid.map List.length).foldr min (grid.headD []).length

/-- Model of `cols(grid) = list(map(list, zip(*grid)))`, the transpose. -/
def cols (grid : Grid) : Grid :=
  (List.range (numCols grid)).map (fun x => grid.map (fun row => row.getD x 0))

/-- Model of `boxes(grid)`: the `b × b` boxes of `b × b` cells (`b = int(sqrt(len(grid)))`),
boxes ordered left-to-right then top-to-bottom, cells within a box row-major. -/
def boxes (grid : Grid) : Grid :=
  let b := isqrt grid.length
  let steps := List.range' 0 ((grid.length + b - 1) / b) b
  steps.flatMap (fun y0 => steps.map (fun x0 =>
    (List.range' y0 b).flatMap (fun y => ((grid.getD y []).drop x0).take b)))

/-- Model of `all_digits = {i for i in range(1, len(grid) + 1)}`. -/
def all_digits (n : Nat) : Finset Nat := (List.range' 1 n).toFinset

/-- Model of `is_solved(grid)`: every group's value set equals `all_digits`. -/
def is_solved (grid : Grid) : Bool :=
  (grid ++ cols grid ++ boxes grid).all (fun group =>
    decide (group.toFinset = all_digits grid.length))

/-- Model of `is_valid_puzzle(grid)`: in every group the non-empty values are distinct,
checked as `len(digits_in_group) == len(set(digits_in_group))`. -/
def is_valid_puzzle (grid : Grid) : Bool :=
  (grid ++ cols grid ++ boxes grid).all (fun group =>
    (group.filter (fun v => v ≠ 0)).dedup.length == (group.filter (fun v => v ≠ 0)).length)

/-- Inner loop of the scan in `solve`, with the loop bound `row.length - x0` made a
structural counter: the first index `x ≥ x0` with `row[x] == 0`. -/
def findEmptyRowAux (row : List Nat) : Nat → Nat → Option Nat
  | 0, _ => none
  | n + 1, x0 => if row.getD x0 1 = 0 then some x0 else findEmptyRowAux row n (x0 + 1)

/-- First index `x ≥ x0` with `row[x] == 0`; models the inner `for x in range(...)` loop. -/
def findEmptyRow (row : List Nat) (x0 : Nat) : Option Nat :=
  findEmptyRowAux row (row.length - x0) x0

/-- Outer loop of the scan in `solve`, with the loop bound `grid.length - y0` made a
structural counter. -/
def findEmptyAux (grid : Grid) : Nat → Nat → Nat → Option (Nat × Nat)
  | 0, _, _ => none
  | n + 1, y0, x0 =>
    match findEmptyRow (grid.getD y0 []) x0 with
    | some x => some (y0, x)
    | none => findEmptyAux grid n (y0 + 1) 0

/-- Scan of `solve`: the first empty cell at or after `(y0, x0)` in row-major order;
rows after `y0` are scanned from column `0`. -/
def findEmpty (grid : Grid) (y0 x0 : Nat) : Option (Nat × Nat) :=
  findEmptyAux grid (grid.length - y0) y0 x0

/-- Number of empty cells of the grid; the measure bounding the recursion of `solve`. -/
def emptyCount (grid : Grid) : Nat := grid.flatten.count 0

/-- Digit loop of `solve` at the empty cell `(y, x)`: skip digits in the peer set, write a
candidate and recurse from `(y, x)` (the recursive call is the parameter `go`); when every
candidate fails, reset the cell to `0` (the backtrack step) and report failure. -/
def tryDigits (go : Grid → Nat → Nat → Option (Bool × Grid)) (grid : Grid) (y x : Nat)
    (peer_set : Finset Nat) : List Nat → Option (Bool × Grid)
  | [] => some (false, setCell grid y x 0)
  | d :: rest =>
    if d ∈ peer_set then tryDigits go grid y x peer_set rest
    else
      match go (setCell grid y x d) y x with
      | none => none
      | some (true, g) => some (true, g)
      | some (false, g) => tryDigits go g y x peer_set rest

/-- Model of `solve(grid, y0, x0)` with explicit fuel: find the first empty cell from the
cursor (none left means success), then try the digits `1..len(grid)` not in its peer set.
Returns the boolean result together with the final grid state; `none` when out of fuel
(fuel `emptyCount grid + 1` is proved to always suffice). -/
def solveF : Nat → Grid → Nat → Nat → Option (Bool × Grid)
  | 0, _, _, _ => none
  | fuel + 1, grid, y0, x0 =>
    match findEmpty grid y0 x0 with
    | none => some (true, grid)
    | some (y, x) =>
        tryDigits (solveF fuel) grid y x (get_peers grid y x) (List.range' 1 grid.length)

/-- Model of the top-level call `solve(grid)` (default cursor `(0, 0)`), run with
sufficient fuel; the fallback value never fires. -/
def solve (grid : Grid) : Bool × Grid :=
  (solveF (emptyCount grid + 1) grid 0 0).getD (false, grid)

/-! ## File format: `read_grid` / `write_grid` -/

/-- Model of `str.isspace()`: the characters CPython treats as whitespace, namely the
ASCII whitespace `\t \n \x0b \x0c \r` and the space, the control separators
`\x1c`-`\x1f`, the next-line character `\x85`, the no-break space `\xa0`, the Ogham
space mark (`U+1680`), the Unicode spaces `U+2000`-`U+200A`, the line and paragraph
separators (`U+2028`, `U+2029`), the narrow no-break space (`U+202F`), the medium
mathematical space (`U+205F`) and the ideographic space (`U+3000`). -/
def pyIsSpace (c : Char) : Bool :=
  (9 ≤ c.toNat && c.toNat ≤ 13) || (28 ≤ c.toNat && c.toNat ≤ 31) ||
  c.toNat == 32 || c.toNat == 133 || c.toNat == 160 || c.toNat == 5760 ||
  (8192 ≤ c.toNat && c.toNat ≤ 8202) || c.toNat == 8232 || c.toNat == 8233 ||
  c.toNat == 8239 || c.toNat == 8287 || c.toNat == 12288

/-- Error classes raised by `read_grid`: `IOError` for an invalid character,
`ValueError` for a wrong cell count, `ValueError` from `int(content[0])` when the
first character is not a digit, and `IndexError` on an empty file. -/
inductive ReadErr where
  | invalidChar : Char → ReadErr
  | wrongCount : Nat → Nat → ReadErr
  | badWidth : ReadErr
  | emptyFile : ReadErr
deriving DecidableEq, Repr

/-- Membership test `c in valid_digits`, `valid_digits = {str(i) for i in range(width + 1)}`. -/
def isValidDigit (width : Nat) (c : Char) : Bool :=
  c.isDigit && c.toNat - 48 ≤ width

/-- Character loop of `read_grid`: skip whitespace, collect valid digit characters,
raise `IOError` at the first invalid character. -/
def collectDigits (width : Nat) : List Char → Except ReadErr (List Char)
  | [] => .ok []
  | c :: cs =>
    if pyIsSpace c then collectDigits width cs
    else if isValidDigit width c then (collectDigits width cs).map (fun l => c :: l)
    else .error (.invalidChar c)

/-- Model of `split_list(lst, max_size)`. -/
def split_list {α : Type} (lst : List α) (max_size : Nat) : List (List α) :=
  (List.range' 0 ((lst.length + max_size - 1) / max_size) max_size).map
    (fun i => (lst.drop i).take max_size)

/-- Model of `read_grid` on the file's character content.  The width is `int(content[0])`,
the literal first character; the collected cells are the digit *characters* themselves
(the source appends `c`, not `int(c)`), so the returned rows hold characters. -/
def read_grid (content : List Char) : Except ReadErr (List (List Char)) :=
  match content with
  | [] => .error .emptyFile
  | c :: rest =>
    if c.isDigit then
      let width := c.toNat - 48
      match collectDigits width rest with
      | .error e => .error e
      | .ok flattened_grid =>
        if flattened_grid.length = width * width then .ok (split_list flattened_grid width)
        else .error (.wrongCount flattened_grid.length (width * width))
    else .error .badWidth

/-- Decimal representation `str(n)` as a character list. -/
def natStr (n : Nat) : List Char := Nat.toDigits 10 n

/-- Text written by `write_grid`: the width on the first line, then one line per row with
the cells' decimal values joined by two spaces. -/
def write_grid_content (grid : List (List Nat)) : List Char :=
  natStr grid.length ++
    '\n' :: List.intercalate ['\n'] (grid.map (fun row => List.intercalate [' ', ' '] (row.map natStr)))

/-! ## Basic lemmas about cells and updates -/

theorem set_getElem_eq {α : Type} (l : List α) (i : Nat) (h : i < l.length) :
    l.set i (l[i]) = l := by
  apply List.ext_getElem (by simp)
  intro n h1 h2
  rcases eq_or_ne i n with rfl | hne
  · simp
  · rw [List.getElem_set_ne hne]

theorem isqrtAux_eq (b : Nat) : ∀ m, b ≤ m → isqrtAux (b * b) m = b := by
  intro m
  induction m with
  | zero =>
    intro h
    have hb : b = 0 := by omega
    subst hb
    rfl
  | succ m ih =>
    intro hbm
    rw [isqrtAux]
    by_cases hc : (m + 1) * (m + 1) ≤ b * b
    · rw [if_pos hc]
      have h1 : m + 1 ≤ b := by
        by_contra hlt
        push_neg at hlt
        exact absurd hc (by have := Nat.mul_self_lt_mul_self hlt; omega)
      omega
    · rw [if_neg hc]
      apply ih
      by_contra hmb
      push_neg at hmb
      exact hc (Nat.mul_self_le_mul_self (by omega))

theorem isqrt_mul_self (b : Nat) : isqrt (b * b) = b := by
  rcases Nat.eq_zero_or_pos b with rfl | hb
  · rfl
  · exact isqrtAux_eq b (b * b) (by calc
      b = b * 1 := (Nat.mul_one b).symm
      _ ≤ b * b := Nat.mul_le_mul_left b hb)

theorem length_setCell (grid : Grid) (y x v : Nat) :
    (setCell grid y x v).length = grid.length :=
  List.length_set ..

theorem row_setCell_eq {grid : Grid} {y : Nat} (x v : Nat) (hy : y < grid.length) :
    (setCell grid y x v).getD y [] = (grid.getD y []).set x v := by
  simp [setCell, List.getD_eq_getElem?_getD, List.getElem?_set_self (by simpa using hy)]

theorem row_setCell_ne (grid : Grid) {y y' : Nat} (x v : Nat) (h : y ≠ y') :
    (setCell grid y x v).getD y' [] = grid.getD y' [] := by
  simp [setCell, List.getD_eq_getElem?_getD, List.getElem?_set_ne h]

theorem cellVal_setCell_self {grid : Grid} {y x : Nat} (v : Nat)
    (hy : y < grid.length) (hx : x < (grid.getD y []).length) :
    cellVal (setCell grid y x v) y x = v := by
  rw [cellVal, row_setCell_eq x v hy]
  simp [List.getD_eq_getElem?_getD, List.getElem?_set_self (by simpa using hx)]

theorem cellVal_setCell_ne {grid : Grid} {y x y' x' : Nat} (v : Nat)
    (h : (y', x') ≠ (y, x)) :
    cellVal (setCell grid y x v) y' x' = cellVal grid y' x' := by
  rcases eq_or_ne y y' with rfl | hy
  · have hx : x ≠ x' := by
      intro hx; exact h (by rw [hx])
    rcases lt_or_le y grid.length with hlt | hle
    · rw [cellVal, row_setCell_eq x v hlt, cellVal,
        List.getD_eq_getElem?_getD, List.getD_eq_getElem?_getD, List.getElem?_set_ne hx,
        List.getD_eq_getElem?_getD]
    · rw [cellVal, setCell, List.set_eq_of_length_le hle]; rfl
  · rw [cellVal, row_setCell_ne grid x v hy]; rfl

theorem setCell_setCell (grid : Grid) (y x a b : Nat) :
    setCell (setCell grid y x a) y x b = setCell grid y x b := by
  rcases lt_or_le y grid.length with hlt | hle
  · have h1 : (grid.set y ((grid.getD y []).set x a)).getD y [] = (grid.getD y []).set x a := by
      rw [List.getD_eq_getElem?_getD, List.getElem?_set_self (by simpa using hlt)]; rfl
    simp only [setCell]
    rw [h1, List.set_set, List.set_set]
  · have h2 : setCell grid y x a = grid := by rw [setCell, List.set_eq_of_length_le hle]
    rw [h2]

theorem setCell_eq_self {grid : Grid} {y x v : Nat}
    (hv : cellVal grid y x = v) : setCell grid y x v = grid := by
  rcases lt_or_le y grid.length with hlt | hle
  · rcases lt_or_le x (grid.getD y []).length with hxlt | hxle
    · rw [setCell, ← hv, cellVal, List.getD_eq_getElem (_ : List Nat) 0 hxlt,
        set_getElem_eq _ x hxlt, List.getD_eq_getElem _ [] hlt, set_getElem_eq _ y hlt]
    · rw [setCell, List.set_eq_of_length_le hxle, List.getD_eq_getElem _ [] hlt,
        set_getElem_eq _ y hlt]
  · rw [setCell, List.set_eq_of_length_le hle]

/-! ## Lemmas about the row-major scan -/

/-- Scan-order comparison: the cursor `(y0, x0)` is at or before the cell `(y, x)`. -/
def ScanLe (y0 x0 y x : Nat) : Prop := y0 < y ∨ (y0 = y ∧ x0 ≤ x)

/-- Scan-order comparison: the cell `(y, x)` is strictly before the cell `(y1, x1)`. -/
def ScanLt (y x y1 x1 : Nat) : Prop := y < y1 ∨ (y = y1 ∧ x < x1)

theorem scanLe_next {y0 y x : Nat} (h : y0 < y) : ScanLe (y0 + 1) 0 y x := by
  rcases eq_or_lt_of_le (Nat.succ_le_of_lt h) with h' | h'
  · exact Or.inr ⟨h', Nat.zero_le _⟩
  · exact Or.inl h'

theorem getD_one_eq_getD_zero {row : List Nat} {i : Nat} (h : i < row.length) :
    row.getD i 1 = row.getD i 0 := by
  rw [List.getD_eq_getElem _ 1 h, List.getD_eq_getElem _ 0 h]

theorem findEmptyRowAux_spec (row : List Nat) :
    ∀ n x0, row.length - x0 = n →
    (∀ x, findEmptyRowAux row n x0 = some x →
      x0 ≤ x ∧ x < row.length ∧ row.getD x 0 = 0 ∧
        ∀ x', x0 ≤ x' → x' < x → row.getD x' 0 ≠ 0) ∧
    (findEmptyRowAux row n x0 = none →
      ∀ x, x0 ≤ x → x < row.length → row.getD x 0 ≠ 0) := by
  intro n
  induction n with
  | zero =>
    intro x0 h0
    exact ⟨fun x hx => (nomatch hx), fun _ x hx0 hxlen => absurd hxlen (by omega)⟩
  | succ n ih =>
    intro x0 h0
    have hlt : x0 < row.length := by omega
    rw [findEmptyRowAux]
    by_cases hz : row.getD x0 1 = 0
    · rw [if_pos hz]
      refine ⟨fun x hx => ?_, fun hx => (nomatch hx)⟩
      cases hx
      refine ⟨le_refl _, hlt, by rwa [getD_one_eq_getD_zero hlt] at hz, ?_⟩
      intro x' h1 h2; omega
    · rw [if_neg hz]
      have hz0 : row.getD x0 0 ≠ 0 := by rwa [getD_one_eq_getD_zero hlt] at hz
      obtain ⟨ih1, ih2⟩ := ih (x0 + 1) (by omega)
      refine ⟨fun x hx => ?_, fun hx x hx0 hxlen => ?_⟩
      · obtain ⟨ha, hb, hc, hd⟩ := ih1 x hx
        refine ⟨by omega, hb, hc, fun x' h1 h2 => ?_⟩
        rcases eq_or_lt_of_le h1 with rfl | h1'
        · exact hz0
        · exact hd x' h1' h2
      · rcases eq_or_lt_of_le hx0 with rfl | hx0'
        · exact hz0
        · exact ih2 hx x hx0' hxlen

theorem findEmptyRow_spec (row : List Nat) (x0 : Nat) :
    (∀ x, findEmptyRow row x0 = some x →
      x0 ≤ x ∧ x < row.length ∧ row.getD x 0 = 0 ∧
        ∀ x', x0 ≤ x' → x' < x → row.getD x' 0 ≠ 0) ∧
    (findEmptyRow row x0 = none →
      ∀ x, x0 ≤ x → x < row.length → row.getD x 0 ≠ 0) :=
  findEmptyRowAux_spec row (row.length - x0) x0 rfl

theorem findEmptyAux_spec (grid : Grid) :
    ∀ n y0 x0, grid.length - y0 = n →
    (∀ y x, findEmptyAux grid n y0 x0 = some (y, x) →
      ScanLe y0 x0 y x ∧ y < grid.length ∧ x < (grid.getD y []).length ∧
        cellVal grid y x = 0 ∧
        ∀ y' x', y' < grid.length → x' < (grid.getD y' []).length →
          ScanLe y0 x0 y' x' → ScanLt y' x' y x → cellVal grid y' x' ≠ 0) ∧
    (findEmptyAux grid n y0 x0 = none →
      ∀ y x, y < grid.length → x < (grid.getD y []).length →
        ScanLe y0 x0 y x → cellVal grid y x ≠ 0) := by
  intro n
  induction n with
  | zero =>
    intro y0 x0 h0
    refine ⟨fun y x hx => (nomatch hx), fun _ y x hy hx hle => ?_⟩
    rcases hle with h | ⟨rfl, _⟩ <;> exact absurd hy (by omega)
  | succ n ih =>
    intro y0 x0 h0
    have hlt : y0 < grid.length := by omega
    rw [findEmptyAux]
    obtain ⟨row1, row2⟩ := findEmptyRow_spec (grid.getD y0 []) x0
    cases hrow : findEmptyRow (grid.getD y0 []) x0 with
    | some x1 =>
      obtain ⟨ha, hb, hc, hd⟩ := row1 x1 hrow
      refine ⟨fun y x hx => ?_, fun hx => (nomatch hx)⟩
      cases hx
      refine ⟨Or.inr ⟨rfl, ha⟩, hlt, hb, hc, ?_⟩
      intro y' x' hy' hx' hle hlt'
      rcases hle with h | ⟨rfl, h⟩
      · rcases hlt' with h' | ⟨rfl, h'⟩ <;> omega
      · rcases hlt' with h' | ⟨_, h'⟩
        · omega
        · exact hd x' h h'
    | none =>
      obtain ⟨ih1, ih2⟩ := ih (y0 + 1) 0 (by omega)
      refine ⟨fun y x hx => ?_, fun hx y x hy hxlen hle => ?_⟩
      · obtain ⟨ha, hb, hc, hd, he⟩ := ih1 y x hx
        have hy0y : y0 < y := by
          rcases ha with h | ⟨rfl, _⟩ <;> omega
        refine ⟨Or.inl hy0y, hb, hc, hd, ?_⟩
        intro y' x' hy' hx' hle hlt'
        rcases hle with h | ⟨rfl, h⟩
        · exact he y' x' hy' hx' (scanLe_next h) hlt'
        · exact row2 hrow x' h hx'
      · rcases hle with h | ⟨rfl, h⟩
        · exact ih2 hx y x hy hxlen (scanLe_next h)
        · exact row2 hrow x h hxlen

theorem findEmpty_spec (grid : Grid) (y0 x0 : Nat) :
    (∀ y x, findEmpty grid y0 x0 = some (y, x) →
      ScanLe y0 x0 y x ∧ y < grid.length ∧ x < (grid.getD y []).length ∧
        cellVal grid y x = 0 ∧
        ∀ y' x', y' < grid.length → x' < (grid.getD y' []).length →
          ScanLe y0 x0 y' x' → ScanLt y' x' y x → cellVal grid y' x' ≠ 0) ∧
    (findEmpty grid y0 x0 = none →
      ∀ y x, y < grid.length → x < (grid.getD y []).length →
        ScanLe y0 x0 y x → cellVal grid y x ≠ 0) :=
  findEmptyAux_spec grid (grid.length - y0) y0 x0 rfl

/-! ## Unfolding equations for the fuelled solver -/

theorem solveF_zero (grid : Grid) (y0 x0 : Nat) : solveF 0 grid y0 x0 = none := rfl

theorem solveF_succ (fuel : Nat) (grid : Grid) (y0 x0 : Nat) :
    solveF (fuel + 1) grid y0 x0 =
      match findEmpty grid y0 x0 with
      | none => some (true, grid)
      | some (y, x) =>
          tryDigits (solveF fuel) grid y x (get_peers grid y x) (List.range' 1 grid.length) := by
  rw [solveF]

theorem tryDigits_nil (go : Grid → Nat → Nat → Option (Bool × Grid)) (grid : Grid)
    (y x : Nat) (ps : Finset Nat) :
    tryDigits go grid y x ps [] = some (false, setCell grid y x 0) := rfl

theorem tryDigits_cons (go : Grid → Nat → Nat → Option (Bool × Grid)) (grid : Grid)
    (y x : Nat) (ps : Finset Nat) (d : Nat) (rest : List Nat) :
    tryDigits go grid y x ps (d :: rest) =
      if d ∈ ps then tryDigits go grid y x ps rest
      else
        match go (setCell grid y x d) y x with
        | none => none
        | some (true, g) => some (true, g)
        | some (false, g) => tryDigits go g y x ps rest := by
  rw [tryDigits]

/-! ## Backtrack restoration: a failing call leaves the grid exactly as it found it -/

theorem tryDigits_false_eq {go : Grid → Nat → Nat → Option (Bool × Grid)}
    (IH : ∀ grid y0 x0 g, go grid y0 x0 = some (false, g) → g = grid) :
    ∀ ds grid y x ps g, tryDigits go grid y x ps ds = some (false, g) →
      g = setCell grid y x 0 := by
  intro ds
  induction ds with
  | nil =>
    intro grid y x ps g h
    rw [tryDigits_nil] at h
    injection h with h'
    injection h' with _ h2
    exact h2.symm
  | cons d rest ih =>
    intro grid y x ps g h
    rw [tryDigits_cons] at h
    by_cases hd : d ∈ ps
    · rw [if_pos hd] at h
      exact ih grid y x ps g h
    · rw [if_neg hd] at h
      cases hs : go (setCell grid y x d) y x with
      | none => rw [hs] at h; exact (nomatch h)
      | some p =>
        obtain ⟨b, g1⟩ := p
        rw [hs] at h
        cases b
        · have hg1 : g1 = setCell grid y x d := IH _ _ _ _ hs
          have hrec : g = setCell g1 y x 0 := ih g1 y x ps g h
          rw [hrec, hg1, setCell_setCell]
        · exact absurd h (by simp)

theorem solveF_false_eq : ∀ fuel grid y0 x0 g,
    solveF fuel grid y0 x0 = some (false, g) → g = grid := by
  intro fuel
  induction fuel with
  | zero =>
    intro grid y0 x0 g h
    rw [solveF_zero] at h
    exact (nomatch h)
  | succ fuel ih =>
    intro grid y0 x0 g h
    rw [solveF_succ] at h
    cases hfe : findEmpty grid y0 x0 with
    | none => rw [hfe] at h; exact absurd h (by simp)
    | some yx =>
      obtain ⟨y, x⟩ := yx
      rw [hfe] at h
      have h1 : g = setCell grid y x 0 := tryDigits_false_eq ih _ grid y x _ g h
      obtain ⟨_, _, _, hzero, _⟩ := (findEmpty_spec grid y0 x0).1 y x hfe
      rw [h1]
      exact setCell_eq_self hzero

/-! ## Fuel sufficiency: one unit of fuel per empty cell always suffices -/

theorem count_set_zero {row : List Nat} {x : Nat} (v : Nat) (hx : x < row.length)
    (hz : row.getD x 0 = 0) (hv : v ≠ 0) :
    (row.set x v).count 0 + 1 = row.count 0 := by
  have hdecomp : row = row.take x ++ row[x] :: row.drop (x + 1) := by
    rw [List.getElem_cons_drop, List.take_append_drop]
  have hset : row.set x v = row.take x ++ v :: row.drop (x + 1) := by
    rw [List.set_eq_take_append_cons_drop, if_pos hx]
  have hval : row[x] = 0 := by rwa [List.getD_eq_getElem _ 0 hx] at hz
  rw [hset]
  conv_rhs => rw [hdecomp]
  rw [List.count_append, List.count_append, hval, List.count_cons_self,
    List.count_cons_of_ne (Ne.symm hv)]
  omega

theorem emptyCount_setCell {grid : Grid} {y x : Nat} (v : Nat)
    (hy : y < grid.length) (hx : x < (grid.getD y []).length)
    (hz : cellVal grid y x = 0) (hv : v ≠ 0) :
    emptyCount (setCell grid y x v) + 1 = emptyCount grid := by
  have hrow : grid[y] = grid.getD y [] := (List.getD_eq_getElem _ [] hy).symm
  have hdecomp : grid = grid.take y ++ grid[y] :: grid.drop (y + 1) := by
    rw [List.getElem_cons_drop, List.take_append_drop]
  have hset : setCell grid y x v = grid.take y ++ ((grid.getD y []).set x v) :: grid.drop (y + 1) := by
    rw [setCell, List.set_eq_take_append_cons_drop, if_pos hy]
  have hcnt := count_set_zero v hx hz hv
  rw [emptyCount, emptyCount, hset]
  conv_rhs => rw [hdecomp]
  rw [List.flatten_append, List.flatten_cons, List.flatten_append, List.flatten_cons,
    List.count_append, List.count_append, List.count_append, List.count_append, hrow]
  omega

theorem tryDigitsF_isSome {fuel : Nat}
    (IH : ∀ grid y0 x0, emptyCount grid < fuel → (solveF fuel grid y0 x0).isSome = true) :
    ∀ ds s₀ s y x ps, (∀ d ∈ ds, d ≠ 0) →
      (∀ d, setCell s y x d = setCell s₀ y x d) →
      (∀ d, d ≠ 0 → emptyCount (setCell s₀ y x d) < fuel) →
      (tryDigits (solveF fuel) s y x ps ds).isSome = true := by
  intro ds
  induction ds with
  | nil =>
    intro s₀ s y x ps _ _ _
    rw [tryDigits_nil]
    rfl
  | cons d rest ih =>
    intro s₀ s y x ps hne heq hcnt
    have hd0 : d ≠ 0 := hne d (by simp)
    have hne' : ∀ d' ∈ rest, d' ≠ 0 := fun d' h' => hne d' (by simp [h'])
    rw [tryDigits_cons]
    by_cases hd : d ∈ ps
    · rw [if_pos hd]
      exact ih s₀ s y x ps hne' heq hcnt
    · rw [if_neg hd]
      cases hs : solveF fuel (setCell s y x d) y x with
      | none =>
        exfalso
        have hsome := IH (setCell s y x d) y x (by rw [heq d]; exact hcnt d hd0)
        rw [hs] at hsome
        exact (nomatch hsome)
      | some p =>
        obtain ⟨b, g1⟩ := p
        cases b
        · have hg1 : g1 = setCell s y x d := solveF_false_eq fuel _ y x g1 hs
          apply ih s₀ g1 y x ps hne'
          · intro d'
            rw [hg1, heq d, setCell_setCell]
          · exact hcnt
        · rfl

theorem solveF_isSome : ∀ fuel grid y0 x0, emptyCount grid < fuel →
    (solveF fuel grid y0 x0).isSome = true := by
  intro fuel
  induction fuel with
  | zero => intro grid y0 x0 h; exact absurd h (by omega)
  | succ fuel ih =>
    intro grid y0 x0 h
    rw [solveF_succ]
    cases hfe : findEmpty grid y0 x0 with
    | none => rfl
    | some yx =>
      obtain ⟨y, x⟩ := yx
      obtain ⟨_, hy, hx, hzero, _⟩ := (findEmpty_spec grid y0 x0).1 y x hfe
      apply tryDigitsF_isSome ih _ grid grid y x _ ?_ (fun d => rfl) ?_
      · intro d hd
        rw [List.mem_range'_1] at hd
        omega
      · intro d hd
        have := emptyCount_setCell d hy hx hzero hd
        omega

/-! ## Clue preservation: the solver never overwrites a non-empty cell -/

theorem tryDigitsF_preserves {fuel : Nat}
    (IH : ∀ grid y0 x0 r g, solveF fuel grid y0 x0 = some (r, g) →
      ∀ y' x', cellVal grid y' x' ≠ 0 → cellVal g y' x' = cellVal grid y' x') :
    ∀ ds s₀ s y x ps r g, cellVal s₀ y x = 0 →
      (∀ d, setCell s y x d = setCell s₀ y x d) →
      (∀ y' x', (y', x') ≠ (y, x) → cellVal s y' x' = cellVal s₀ y' x') →
      tryDigits (solveF fuel) s y x ps ds = some (r, g) →
      ∀ y' x', cellVal s₀ y' x' ≠ 0 → cellVal g y' x' = cellVal s₀ y' x' := by
  intro ds
  induction ds with
  | nil =>
    intro s₀ s y x ps r g hz heq hsame h y' x' hnz
    rw [tryDigits_nil] at h
    injection h with h'
    injection h' with _ h2
    have hne : (y', x') ≠ (y, x) := by
      intro hc
      rw [show y' = y from congrArg Prod.fst hc, show x' = x from congrArg Prod.snd hc] at hnz
      exact hnz hz
    rw [← h2, cellVal_setCell_ne 0 hne]
    exact hsame y' x' hne
  | cons d rest ih =>
    intro s₀ s y x ps r g hz heq hsame h y' x' hnz
    have hne : (y', x') ≠ (y, x) := by
      intro hc
      rw [show y' = y from congrArg Prod.fst hc, show x' = x from congrArg Prod.snd hc] at hnz
      exact hnz hz
    rw [tryDigits_cons] at h
    by_cases hd : d ∈ ps
    · rw [if_pos hd] at h
      exact ih s₀ s y x ps r g hz heq hsame h y' x' hnz
    · rw [if_neg hd] at h
      cases hs : solveF fuel (setCell s y x d) y x with
      | none => rw [hs] at h; exact (nomatch h)
      | some p =>
        obtain ⟨b, g1⟩ := p
        rw [hs] at h
        rw [heq d] at hs
        cases b
        · have hg1 : g1 = setCell s₀ y x d := solveF_false_eq fuel _ y x g1 hs
          refine ih s₀ g1 y x ps r g hz ?_ ?_ h y' x' hnz
          · intro d'
            rw [hg1, setCell_setCell]
          · intro y1 x1 h1
            rw [hg1, cellVal_setCell_ne d h1]
        · injection h with h'
          injection h' with _ h2
          have hval : cellVal (setCell s₀ y x d) y' x' = cellVal s₀ y' x' :=
            cellVal_setCell_ne d hne
          have := IH _ y x _ g1 hs y' x' (by rw [hval]; exact hnz)
          rw [← h2, this, hval]

theorem solveF_preserves : ∀ fuel grid y0 x0 r g,
    solveF fuel grid y0 x0 = some (r, g) →
    ∀ y' x', cellVal grid y' x' ≠ 0 → cellVal g y' x' = cellVal grid y' x' := by
  intro fuel
  induction fuel with
  | zero =>
    intro grid y0 x0 r g h
    rw [solveF_zero] at h
    exact (nomatch h)
  | succ fuel ih =>
    intro grid y0 x0 r g h
    rw [solveF_succ] at h
    cases hfe : findEmpty grid y0 x0 with
    | none =>
      rw [hfe] at h
      injection h with h'
      injection h' with _ h2
      intro y' x' _
      rw [← h2]
    | some yx =>
      obtain ⟨y, x⟩ := yx
      rw [hfe] at h
      obtain ⟨_, _, _, hzero, _⟩ := (findEmpty_spec grid y0 x0).1 y x hfe
      exact tryDigitsF_preserves ih _ grid grid y x _ r g hzero (fun d => rfl)
        (fun y1 x1 _ => rfl) h

/-! ## Well-formed grids -/

/-- Precondition of the data model: an `N × N` grid with `N = b * b` a perfect square. -/
def SquareGrid (grid : Grid) (b : Nat) : Prop :=
  grid.length = b * b ∧ ∀ row ∈ grid, row.length = b * b

theorem sum_map_length {L : List (List Nat)} {n : Nat} (h : ∀ row ∈ L, row.length = n) :
    (L.map List.length).sum = L.length * n := by
  induction L with
  | nil => simp
  | cons r t ih =>
    have hr := h r (List.mem_cons_self r t)
    have ht := ih (fun row hrow => h row (List.mem_cons_of_mem r hrow))
    simp only [List.map_cons, List.sum_cons, List.length_cons, hr, ht]
    ring

theorem emptyCount_le {grid : Grid} {b : Nat} (h : SquareGrid grid b) :
    emptyCount grid ≤ (b * b) * (b * b) := by
  have h1 : emptyCount grid ≤ grid.flatten.length := List.count_le_length 0 _
  have h2 : grid.flatten.length = (b * b) * (b * b) := by
    rw [List.length_flatten, sum_map_length h.2, h.1]
  omega

/-! ## Claim theorems: C2, C9, C10 -/

/-- C2: for every grid, if `solve(grid)` returns false then the grid after the call
equals the grid before the call cell for cell — the failed search restores the exact
pre-call state. -/
theorem solve_false_restores (grid : Grid) (h : (solve grid).1 = false) :
    (solve grid).2 = grid := by
  rw [solve] at h ⊢
  cases hs : solveF (emptyCount grid + 1) grid 0 0 with
  | none => rfl
  | some p =>
    obtain ⟨b, g⟩ := p
    cases b
    · exact solveF_false_eq _ grid 0 0 g hs
    · rw [hs] at h
      simp at h

/-- Witness for C2 at a concrete unsolvable 4×4 grid: the first empty cell `(0, 0)` has
all four digits among its peers, so the search fails and the grid is returned intact. -/
theorem solve_false_restores_witness :
    (solve [[0, 1, 2, 3], [4, 0, 0, 0], [0, 0, 0, 0], [0, 0, 0, 0]]).1 = false ∧
      (solve [[0, 1, 2, 3], [4, 0, 0, 0], [0, 0, 0, 0], [0, 0, 0, 0]]).2 =
        [[0, 1, 2, 3], [4, 0, 0, 0], [0, 0, 0, 0], [0, 0, 0, 0]] :=
  ⟨by decide, solve_false_restores _ (by decide)⟩

/-- C9: for every `N × N` grid (`N = b * b`), the solver with fuel `N² + 1` completes
(the fuelled embedding never exhausts its fuel, i.e. recursion depth is at most `N²`,
the number of cells), and each recursive call is made on a grid with strictly fewer
empty cells. -/
theorem solve_fuel_bound {grid : Grid} {b : Nat} (h : SquareGrid grid b) :
    (solveF ((b * b) * (b * b) + 1) grid 0 0).isSome = true ∧
      ∀ y x d, cellVal grid y x = 0 → y < grid.length → x < (grid.getD y []).length →
        d ≠ 0 → emptyCount (setCell grid y x d) < emptyCount grid := by
  constructor
  · exact solveF_isSome _ grid 0 0 (by have := emptyCount_le h; omega)
  · intro y x d hz hy hx hd
    have := emptyCount_setCell d hy hx hz hd
    omega

/-- Witness for C9 at the concrete 1×1 grid `[[0]]`. -/
theorem solve_fuel_bound_witness :
    SquareGrid [[0]] 1 ∧
      ((solveF ((1 * 1) * (1 * 1) + 1) [[0]] 0 0).isSome = true ∧
        ∀ y x d, cellVal [[0]] y x = 0 → y < List.length [[0]] →
          x < (List.getD [[0]] y []).length → d ≠ 0 →
          emptyCount (setCell [[0]] y x d) < emptyCount [[0]]) :=
  ⟨by constructor <;> simp [SquareGrid], solve_fuel_bound (by constructor <;> simp [SquareGrid])⟩

/-- C10: for every grid (whether `solve` succeeds or fails), every cell holding a
non-zero value before the call holds the same value after it — the solver only ever
writes to empty cells, so the original clues are preserved. -/
theorem solve_preserves_clues (grid : Grid) (y x : Nat)
    (h : cellVal grid y x ≠ 0) : cellVal (solve grid).2 y x = cellVal grid y x := by
  rw [solve]
  cases hs : solveF (emptyCount grid + 1) grid 0 0 with
  | none => rfl
  | some p =>
    obtain ⟨b, g⟩ := p
    exact solveF_preserves _ grid 0 0 b g hs y x h

/-- Witness for C10 at a concrete 4×4 grid with a single clue. -/
theorem solve_preserves_clues_witness :
    cellVal [[2, 0, 0, 0], [0, 0, 0, 0], [0, 0, 0, 0], [0, 0, 0, 0]] 0 0 ≠ 0 ∧
      cellVal (solve [[2, 0, 0, 0], [0, 0, 0, 0], [0, 0, 0, 0], [0, 0, 0, 0]]).2 0 0 =
        cellVal [[2, 0, 0, 0], [0, 0, 0, 0], [0, 0, 0, 0], [0, 0, 0, 0]] 0 0 :=
  ⟨by decide, solve_preserves_clues _ 0 0 (by decide)⟩

/-! ## Claim theorem C7: characterisation of `is_valid_puzzle` -/

theorem dedup_length_iff {l : List Nat} : l.dedup.length = l.length ↔ l.Nodup := by
  constructor
  · intro h
    exact List.dedup_eq_self.mp ((List.dedup_sublist l).eq_of_length h)
  · intro h
    rw [List.dedup_eq_self.mpr h]

theorem count_le_one_filter_iff (g : List Nat) :
    (∀ a, (g.filter (fun v => v ≠ 0)).count a ≤ 1) ↔ ∀ v, v ≠ 0 → g.count v ≤ 1 := by
  constructor
  · intro h v hv
    have := h v
    rwa [List.count_filter (by simpa using hv)] at this
  · intro h a
    by_cases ha : a ≠ 0
    · rw [List.count_filter (by simpa using ha)]
      exact h a ha
    · have : a ∉ g.filter (fun v => v ≠ 0) := by
        intro hmem
        exact ha (by simpa using (List.mem_filter.mp hmem).2)
      rw [List.count_eq_zero.mpr this]
      omega

theorem group_valid_iff (g : List Nat) :
    ((g.filter (fun v => v ≠ 0)).dedup.length == (g.filter (fun v => v ≠ 0)).length) = true ↔
      ∀ v, v ≠ 0 → g.count v ≤ 1 := by
  rw [beq_iff_eq, dedup_length_iff, List.nodup_iff_count_le_one, count_le_one_filter_iff]

/-- C7: for every grid, `is_valid_puzzle(grid)` returns true if and only if no group
(row, column or box) contains a duplicated non-zero value; empty cells (`0`) are
tolerated freely, and repeated zeros are never a violation. -/
theorem is_valid_puzzle_iff (grid : Grid) :
    is_valid_puzzle grid = true ↔
      ∀ group ∈ grid ++ cols grid ++ boxes grid, ∀ v, v ≠ 0 → group.count v ≤ 1 := by
  rw [is_valid_puzzle, List.all_eq_true]
  exact ⟨fun h g hg => (group_valid_iff g).mp (h g hg),
    fun h g hg => (group_valid_iff g).mpr (h g hg)⟩

/-! ## The groups of a square grid as coordinate views

For a well-formed `N × N` grid (`N = b * b`) the 3N groups `grid ++ cols grid ++
boxes grid` are exactly the value maps of explicit coordinate lists.  These lemmas
let every statement about groups be re-read coordinate-wise. -/

/-- Coordinates of row `y` of an `N × N` grid, left to right. -/
def rowCoords (N y : Nat) : List (Nat × Nat) := (List.range N).map (fun x => (y, x))

/-- Coordinates of column `x` of an `N × N` grid, top to bottom. -/
def colCoords (N x : Nat) : List (Nat × Nat) := (List.range N).map (fun y => (y, x))

/-- Coordinates of the box with box-row `bi` and box-column `bj`, row-major. -/
def boxCoords (b bi bj : Nat) : List (Nat × Nat) :=
  (List.range b).flatMap (fun dy => (List.range b).map (fun dx => (b * bi + dy, b * bj + dx)))

/-- Coordinate lists of all 3N groups, in the order `is_solved` traverses them. -/
def groupCoords (b : Nat) : List (List (Nat × Nat)) :=
  (List.range (b * b)).map (rowCoords (b * b)) ++
    (List.range (b * b)).map (colCoords (b * b)) ++
    (List.range b).flatMap (fun bi => (List.range b).map (fun bj => boxCoords b bi bj))

/-- Two cells share a group: same row, same column, or same box. -/
def SameGroup (b y1 x1 y2 x2 : Nat) : Prop :=
  y1 = y2 ∨ x1 = x2 ∨ (y1 / b = y2 / b ∧ x1 / b = x2 / b)

theorem map_range_getD {α : Type} (l : List α) (d : α) :
    (List.range l.length).map (fun i => l.getD i d) = l := by
  apply List.ext_getElem (by simp)
  intro n h1 h2
  rw [List.getElem_map, List.getElem_range]
  exact (List.getD_eq_getElem l d h2).symm ▸ rfl

theorem foldr_min_const {n : Nat} : ∀ l : List Nat, (∀ a ∈ l, a = n) → l.foldr min n = n := by
  intro l
  induction l with
  | nil => intro _; rfl
  | cons a t ih =>
    intro h
    have ha : a = n := h a (List.mem_cons_self a t)
    have ht := ih (fun a' h' => h a' (List.mem_cons_of_mem a h'))
    simp [List.foldr_cons, ha, ht]

theorem numCols_eq {grid : Grid} {b : Nat} (h : SquareGrid grid b) :
    numCols grid = b * b := by
  obtain ⟨h1, h2⟩ := h
  cases grid with
  | nil => simpa [numCols] using h1.symm
  | cons r t =>
    have hr : r.length = b * b := h2 r (List.mem_cons_self r t)
    rw [numCols]
    simp only [List.headD_cons, hr]
    exact foldr_min_const _ (fun a ha => by
      rw [List.mem_map] at ha
      obtain ⟨row, hrow, rfl⟩ := ha
      exact h2 row hrow)

theorem getD_row_eq {grid : Grid} {y : Nat} (hy : y < grid.length) :
    grid.getD y [] = grid[y] := List.getD_eq_getElem grid [] hy

theorem row_length_eq {grid : Grid} {b : Nat} (h : SquareGrid grid b) {y : Nat}
    (hy : y < grid.length) : (grid.getD y []).length = b * b := by
  rw [getD_row_eq hy]
  exact h.2 grid[y] (List.getElem_mem hy)

theorem rows_eq_coords {grid : Grid} {b : Nat} (h : SquareGrid grid b) :
    grid = ((List.range (b * b)).map (rowCoords (b * b))).map
      (fun cl => cl.map (fun p => cellVal grid p.1 p.2)) := by
  apply List.ext_getElem (by simp [h.1])
  intro y hy1 hy2
  simp only [List.getElem_map, List.getElem_range]
  apply List.ext_getElem (by simp [rowCoords, h.2 grid[y] (List.getElem_mem hy1)])
  intro x hx1 hx2
  have hxr : x < (grid.getD y []).length := by
    rw [row_length_eq h hy1]
    simpa [rowCoords] using hx2
  simp only [rowCoords, List.getElem_map, List.getElem_range]
  rw [cellVal, getD_row_eq hy1]
  exact (List.getD_eq_getElem _ 0 (by rwa [getD_row_eq hy1] at hxr)).symm

theorem cols_eq_coords {grid : Grid} {b : Nat} (h : SquareGrid grid b) :
    cols grid = ((List.range (b * b)).map (colCoords (b * b))).map
      (fun cl => cl.map (fun p => cellVal grid p.1 p.2)) := by
  rw [cols, numCols_eq h]
  apply List.ext_getElem (by simp)
  intro x hx1 hx2
  simp only [List.getElem_map, List.getElem_range]
  apply List.ext_getElem (by simp [colCoords, h.1])
  intro y hy1 hy2
  have hyN : y < grid.length := by simpa using hy1
  simp only [colCoords, List.getElem_map, List.getElem_range]
  rw [cellVal, getD_row_eq hyN]

theorem steps_count (b : Nat) : (b * b + b - 1) / b = b := by
  rcases Nat.eq_zero_or_pos b with rfl | hb
  · rfl
  · have h1 : b * b + b - 1 = (b - 1) + b * b := by omega
    rw [h1, Nat.add_mul_div_left _ _ hb, Nat.div_eq_of_lt (by omega)]
    omega

theorem range'_step (n s : Nat) : List.range' 0 n s = (List.range n).map (fun i => s * i) := by
  apply List.ext_getElem (by simp)
  intro i h1 h2
  rw [List.getElem_range' i h1, List.getElem_map, List.getElem_range]
  omega

theorem slice_eq_map {row : List Nat} {x0 bw : Nat} (hlen : x0 + bw ≤ row.length) :
    (row.drop x0).take bw = (List.range bw).map (fun dx => row.getD (x0 + dx) 0) := by
  apply List.ext_getElem (by simp; omega)
  intro i h1 h2
  have hi : i < bw := by simpa using h2
  rw [List.getElem_take, List.getElem_drop, List.getElem_map, List.getElem_range]
  exact (List.getD_eq_getElem _ 0 (by omega)).symm

theorem boxes_def (grid : Grid) : boxes grid =
    (List.range' 0 ((grid.length + isqrt grid.length - 1) / isqrt grid.length)
        (isqrt grid.length)).flatMap
      (fun y0 => (List.range' 0 ((grid.length + isqrt grid.length - 1) / isqrt grid.length)
          (isqrt grid.length)).map
        (fun x0 => (List.range' y0 (isqrt grid.length)).flatMap
          (fun y => ((grid.getD y []).drop x0).take (isqrt grid.length)))) := rfl

theorem boxes_eq_coords {grid : Grid} {b : Nat} (h : SquareGrid grid b) :
    boxes grid =
      ((List.range b).flatMap (fun bi => (List.range b).map (fun bj => boxCoords b bi bj))).map
        (fun cl => cl.map (fun p => cellVal grid p.1 p.2)) := by
  have hb : isqrt grid.length = b := by rw [h.1, isqrt_mul_self]
  rw [boxes_def, hb, h.1, steps_count, range'_step, List.map_flatMap, List.flatMap_map]
  apply List.flatMap_congr
  intro bi hbi
  rw [List.mem_range] at hbi
  rw [List.map_map, List.map_map]
  apply List.map_congr_left
  intro bj hbj
  rw [List.mem_range] at hbj
  have hb1 : 1 ≤ b := by omega
  show (List.range' (b * bi) b).flatMap (fun y => ((grid.getD y []).drop (b * bj)).take b) =
    (boxCoords b bi bj).map (fun p => cellVal grid p.1 p.2)
  rw [boxCoords, List.map_flatMap, List.range'_eq_map_range, List.flatMap_map]
  apply List.flatMap_congr
  intro dy hdy
  rw [List.mem_range] at hdy
  have hyN : b * bi + dy < b * b := by
    have h1 : b * bi + dy ≤ b * (b - 1) + (b - 1) := by
      have : b * bi ≤ b * (b - 1) := Nat.mul_le_mul_left b (by omega)
      omega
    have h2 : b * (b - 1) + (b - 1) < b * b := by
      have : b * (b - 1) + b = b * b := by
        rw [← Nat.mul_succ]
        congr 1
        omega
      omega
    omega
  have hrow : (grid.getD (b * bi + dy) []).length = b * b :=
    row_length_eq h (by rw [h.1]; exact hyN)
  have hslice : b * bj + b ≤ (grid.getD (b * bi + dy) []).length := by
    rw [hrow]
    have : b * bj + b ≤ b * (b - 1) + b := by
      have : b * bj ≤ b * (b - 1) := Nat.mul_le_mul_left b (by omega)
      omega
    have h2 : b * (b - 1) + b = b * b := by
      rw [← Nat.mul_succ]
      congr 1
      omega
    omega
  rw [slice_eq_map hslice, List.map_map]
  apply List.map_congr_left
  intro dx hdx
  rfl

/-- All 3N groups of a well-formed grid are the value maps of their coordinate lists. -/
theorem groups_eq_coords {grid : Grid} {b : Nat} (h : SquareGrid grid b) :
    grid ++ cols grid ++ boxes grid =
      (groupCoords b).map (fun cl => cl.map (fun p => cellVal grid p.1 p.2)) := by
  rw [groupCoords, List.map_append, List.map_append]
  rw [← rows_eq_coords h, ← cols_eq_coords h, ← boxes_eq_coords h]

/-! ## Properties of the coordinate lists -/

theorem sum_map_const {α : Type} (l : List α) (c : Nat) :
    (l.map (fun _ => c)).sum = l.length * c := by
  induction l with
  | nil => simp
  | cons a t ih => simp [ih, Nat.succ_mul, Nat.add_comm]

theorem length_rowCoords (N y : Nat) : (rowCoords N y).length = N := by
  simp [rowCoords]

theorem length_colCoords (N x : Nat) : (colCoords N x).length = N := by
  simp [colCoords]

theorem length_boxCoords (b bi bj : Nat) : (boxCoords b bi bj).length = b * b := by
  rw [boxCoords, List.length_flatMap]
  have : (List.map (List.length ∘ fun dy =>
      (List.range b).map (fun dx => (b * bi + dy, b * bj + dx))) (List.range b)) =
      (List.range b).map (fun _ => b) := by
    apply List.map_congr_left
    intro a _
    simp
  rw [this, sum_map_const, List.length_range]

theorem mem_rowCoords {N y : Nat} {p : Nat × Nat} :
    p ∈ rowCoords N y ↔ p.1 = y ∧ p.2 < N := by
  obtain ⟨py, px⟩ := p
  simp only [rowCoords, List.mem_map, List.mem_range, Prod.mk.injEq]
  constructor
  · rintro ⟨a, ha, rfl, rfl⟩
    exact ⟨rfl, ha⟩
  · rintro ⟨rfl, h⟩
    exact ⟨px, h, rfl, rfl⟩

theorem mem_colCoords {N x : Nat} {p : Nat × Nat} :
    p ∈ colCoords N x ↔ p.2 = x ∧ p.1 < N := by
  obtain ⟨py, px⟩ := p
  simp only [colCoords, List.mem_map, List.mem_range, Prod.mk.injEq]
  constructor
  · rintro ⟨a, ha, rfl, rfl⟩
    exact ⟨rfl, ha⟩
  · rintro ⟨rfl, h⟩
    exact ⟨py, h, rfl, rfl⟩

theorem box_coord_lt {b bi dy : Nat} (hbi : bi < b) (hdy : dy < b) :
    b * bi + dy < b * b := by
  have h1 : b * bi + dy < b * (bi + 1) := by
    rw [Nat.mul_succ]
    omega
  have h2 : b * (bi + 1) ≤ b * b := Nat.mul_le_mul_left b hbi
  omega

theorem mem_boxCoords {b : Nat} (hb : 0 < b) {bi bj : Nat} {p : Nat × Nat} :
    p ∈ boxCoords b bi bj ↔ p.1 / b = bi ∧ p.2 / b = bj := by
  obtain ⟨py, px⟩ := p
  simp only [boxCoords, List.mem_flatMap, List.mem_map, List.mem_range, Prod.mk.injEq]
  constructor
  · rintro ⟨dy, hdy, dx, hdx, rfl, rfl⟩
    constructor
    · rw [Nat.mul_add_div hb, Nat.div_eq_of_lt hdy]
      omega
    · rw [Nat.mul_add_div hb, Nat.div_eq_of_lt hdx]
      omega
  · rintro ⟨h1, h2⟩
    refine ⟨py % b, Nat.mod_lt py hb, px % b, Nat.mod_lt px hb, ?_, ?_⟩
    · rw [← h1, Nat.div_add_mod]
    · rw [← h2, Nat.div_add_mod]

theorem nodup_rowCoords (N y : Nat) : (rowCoords N y).Nodup :=
  (List.nodup_range N).map (fun a a' h => congrArg Prod.snd h)

theorem nodup_colCoords (N x : Nat) : (colCoords N x).Nodup :=
  (List.nodup_range N).map (fun a a' h => congrArg Prod.fst h)

theorem boxCoords_eq_product (b bi bj : Nat) :
    boxCoords b bi bj =
      ((List.range b) ×ˢ (List.range b)).map (fun q => (b * bi + q.1, b * bj + q.2)) := by
  show boxCoords b bi bj =
    ((List.range b).flatMap (fun a => (List.range b).map (Prod.mk a))).map
      (fun q => (b * bi + q.1, b * bj + q.2))
  rw [boxCoords, List.map_flatMap]
  apply List.flatMap_congr
  intro dy _
  rw [List.map_map]
  rfl

theorem nodup_boxCoords (b bi bj : Nat) : (boxCoords b bi bj).Nodup := by
  rw [boxCoords_eq_product]
  apply List.Nodup.map ?_ (List.Nodup.product (List.nodup_range b) (List.nodup_range b))
  intro q q' h
  obtain ⟨h1, h2⟩ := Prod.mk.injEq .. ▸ h
  exact Prod.ext (by omega) (by omega)

/-! ## Claim theorem C6: characterisation of `is_solved` -/

theorem mem_all_digits {N v : Nat} : v ∈ all_digits N ↔ 1 ≤ v ∧ v < 1 + N := by
  rw [all_digits, List.mem_toFinset, List.mem_range'_1]

theorem toFinset_eq_all_digits_iff {g : List Nat} {N : Nat} (hlen : g.length = N) :
    g.toFinset = all_digits N ↔ g.Perm (List.range' 1 N) := by
  constructor
  · intro hf
    have hnodup : g.Nodup := by
      have hcard : g.toFinset.card = N := by
        rw [hf, all_digits, List.card_toFinset,
          List.dedup_eq_self.mpr (List.nodup_range' 1 N), List.length_range']
      rw [List.card_toFinset] at hcard
      exact dedup_length_iff.mp (by omega)
    rw [List.perm_iff_count]
    intro a
    by_cases hm : a ∈ g
    · rw [List.count_eq_one_of_mem hnodup hm]
      have ha : a ∈ List.range' 1 N := by
        have h1 : a ∈ g.toFinset := List.mem_toFinset.mpr hm
        rw [hf, all_digits] at h1
        exact List.mem_toFinset.mp h1
      rw [List.count_eq_one_of_mem (List.nodup_range' 1 N) ha]
    · rw [List.count_eq_zero.mpr hm, List.count_eq_zero.mpr ?_]
      intro hc
      apply hm
      have h1 : a ∈ all_digits N := by
        rw [all_digits]
        exact List.mem_toFinset.mpr hc
      rw [← hf] at h1
      exact List.mem_toFinset.mp h1
  · intro hp
    rw [all_digits, List.toFinset_eq_of_perm _ _ hp]

theorem mem_groupCoords_length {b : Nat} {cl : List (Nat × Nat)} (h : cl ∈ groupCoords b) :
    cl.length = b * b := by
  rw [groupCoords] at h
  rcases List.mem_append.mp h with h12 | h3
  · rcases List.mem_append.mp h12 with h1 | h2
    · obtain ⟨y, _, rfl⟩ := List.mem_map.mp h1
      exact length_rowCoords _ y
    · obtain ⟨x, _, rfl⟩ := List.mem_map.mp h2
      exact length_colCoords _ x
  · obtain ⟨bi, _, hcl⟩ := List.mem_flatMap.mp h3
    obtain ⟨bj, _, rfl⟩ := List.mem_map.mp hcl
    exact length_boxCoords b bi bj

/-- C6: for every `N × N` grid (`N = b * b` a perfect square), `is_solved(grid)` returns
true if and only if every row, every column and every box — the value lists of the 3N
coordinate groups — is a permutation of `1..N` (hence no duplicates, no empty cells and
no out-of-range values). -/
theorem is_solved_iff {grid : Grid} {b : Nat} (h : SquareGrid grid b) :
    is_solved grid = true ↔
      ∀ cl ∈ groupCoords b,
        (cl.map (fun p => cellVal grid p.1 p.2)).Perm (List.range' 1 (b * b)) := by
  rw [is_solved, groups_eq_coords h, h.1, List.all_eq_true, List.forall_mem_map]
  constructor
  · intro hall cl hcl
    have := hall cl hcl
    rw [decide_eq_true_eq] at this
    exact (toFinset_eq_all_digits_iff (by rw [List.length_map, mem_groupCoords_length hcl])).mp this
  · intro hall cl hcl
    rw [decide_eq_true_eq]
    exact (toFinset_eq_all_digits_iff (by rw [List.length_map, mem_groupCoords_length hcl])).mpr
      (hall cl hcl)

/-- Witness for C6 at a concrete solved 4×4 grid. -/
theorem is_solved_iff_witness :
    SquareGrid [[1, 2, 3, 4], [3, 4, 1, 2], [2, 1, 4, 3], [4, 3, 2, 1]] 2 ∧
      (is_solved [[1, 2, 3, 4], [3, 4, 1, 2], [2, 1, 4, 3], [4, 3, 2, 1]] = true ↔
        ∀ cl ∈ groupCoords 2,
          (cl.map (fun p => cellVal [[1, 2, 3, 4], [3, 4, 1, 2], [2, 1, 4, 3], [4, 3, 2, 1]]
            p.1 p.2)).Perm (List.range' 1 (2 * 2))) :=
  ⟨⟨rfl, by decide⟩, is_solved_iff ⟨rfl, by decide⟩⟩

/-! ## Characterisation of `get_peers` (claim C5) -/

/-- A peer of `(y, x)`: an in-range cell other than `(y, x)` sharing its row, column
or box. -/
def IsPeer (b y x y1 x1 : Nat) : Prop :=
  y1 < b * b ∧ x1 < b * b ∧ (y1, x1) ≠ (y, x) ∧ SameGroup b y x y1 x1

/-- Values of the cells of row `y` other than the one in column `x` (the claim's first
union component). -/
def rowPeerVals (grid : Grid) (b y x : Nat) : Finset Nat :=
  ((Finset.range (b * b)).filter (fun x1 => x1 ≠ x)).image (fun x1 => cellVal grid y x1)

/-- Values of the cells of column `x` other than the one in row `y` (the claim's second
union component). -/
def colPeerVals (grid : Grid) (b y x : Nat) : Finset Nat :=
  ((Finset.range (b * b)).filter (fun y1 => y1 ≠ y)).image (fun y1 => cellVal grid y1 x)

/-- Values of the cells of `(y, x)`'s box whose row differs from `y` and whose column
differs from `x` (the claim's third union component, with the box asymmetry). -/
def boxPeerVals (grid : Grid) (b y x : Nat) : Finset Nat :=
  (((Finset.range (b * b)) ×ˢ (Finset.range (b * b))).filter
    (fun q => q.1 / b = y / b ∧ q.2 / b = x / b ∧ q.1 ≠ y ∧ q.2 ≠ x)).image
    (fun q => cellVal grid q.1 q.2)

theorem enum_eq_map {α : Type} (l : List α) (d : α) :
    l.enum = (List.range l.length).map (fun i => (i, l.getD i d)) := by
  apply List.ext_getElem (by simp)
  intro i h1 h2
  have hi : i < l.length := by simpa using h1
  rw [List.getElem_enum, List.getElem_map, List.getElem_range,
    List.getD_eq_getElem l d hi]

theorem div_lt_of_lt_sq {b y : Nat} (hy : y < b * b) : y / b < b := by
  rcases Nat.eq_zero_or_pos b with rfl | hb
  · omega
  · exact (Nat.div_lt_iff_lt_mul hb).mpr hy

theorem sub_mod_eq (y b : Nat) : y - y % b = b * (y / b) := by
  have := Nat.div_add_mod y b
  omega

theorem mem_range'_box {b q y1 : Nat} (hb : 0 < b) :
    y1 ∈ List.range' (b * q) b ↔ y1 / b = q := by
  rw [List.mem_range'_1]
  constructor
  · rintro ⟨h1, h2⟩
    refine Nat.div_eq_of_lt_le ?_ ?_
    · rw [Nat.mul_comm q b]
      omega
    · rw [Nat.add_mul, Nat.one_mul, Nat.mul_comm q b]
      omega
  · rintro rfl
    have h1 := Nat.div_add_mod y1 b
    have h2 := Nat.mod_lt y1 hb
    omega

/-- Unfolded form of `get_peers`. -/
theorem get_peers_def (grid : Grid) (y0 x0 : Nat) :
    get_peers grid y0 x0 =
      (((grid.getD y0 []).enum.filter (fun p => p.1 ≠ x0)).map (fun p => p.2)).toFinset ∪
      ((grid.enum.filter (fun p => p.1 ≠ y0)).map (fun p => p.2.getD x0 0)).toFinset ∪
      ((((List.range' (y0 - y0 % isqrt grid.length) (isqrt grid.length)).flatMap
          (fun y => (List.range' (x0 - x0 % isqrt grid.length) (isqrt grid.length)).map
            (fun x => (y, x)))).filter
          (fun p => p.1 ≠ y0 ∧ p.2 ≠ x0)).map (fun p => cellVal grid p.1 p.2)).toFinset := rfl

theorem mem_rowPart_iff {grid : Grid} {b : Nat} (h : SquareGrid grid b) {y x : Nat}
    (hy : y < b * b) (v : Nat) :
    v ∈ ((grid.getD y []).enum.filter (fun p => p.1 ≠ x)).map (fun p => p.2) ↔
      ∃ x1, x1 < b * b ∧ x1 ≠ x ∧ cellVal grid y x1 = v := by
  have hyg : y < grid.length := by rw [h.1]; exact hy
  have hrowlen : (grid.getD y []).length = b * b := row_length_eq h hyg
  rw [List.mem_map]
  constructor
  · rintro ⟨p, hp, rfl⟩
    rw [List.mem_filter] at hp
    obtain ⟨hpe, hpx⟩ := hp
    rw [enum_eq_map _ 0, List.mem_map] at hpe
    obtain ⟨i, hi, rfl⟩ := hpe
    rw [List.mem_range, hrowlen] at hi
    exact ⟨i, hi, by simpa using hpx, rfl⟩
  · rintro ⟨x1, hx1, hne, rfl⟩
    refine ⟨(x1, (grid.getD y []).getD x1 0), ?_, rfl⟩
    rw [List.mem_filter, enum_eq_map _ 0, List.mem_map]
    exact ⟨⟨x1, by rw [List.mem_range, hrowlen]; exact hx1, rfl⟩, by simpa using hne⟩

theorem mem_colPart_iff {grid : Grid} {b : Nat} (h : SquareGrid grid b) (y x v : Nat) :
    v ∈ (grid.enum.filter (fun p => p.1 ≠ y)).map (fun p => p.2.getD x 0) ↔
      ∃ y1, y1 < b * b ∧ y1 ≠ y ∧ cellVal grid y1 x = v := by
  rw [List.mem_map]
  constructor
  · rintro ⟨p, hp, rfl⟩
    rw [List.mem_filter] at hp
    obtain ⟨hpe, hpy⟩ := hp
    rw [enum_eq_map _ ([] : List Nat), List.mem_map] at hpe
    obtain ⟨i, hi, rfl⟩ := hpe
    rw [List.mem_range, h.1] at hi
    exact ⟨i, hi, by simpa using hpy, rfl⟩
  · rintro ⟨y1, hy1, hne, rfl⟩
    refine ⟨(y1, grid.getD y1 []), ?_, rfl⟩
    rw [List.mem_filter, enum_eq_map _ ([] : List Nat), List.mem_map]
    exact ⟨⟨y1, by rw [List.mem_range, h.1]; exact hy1, rfl⟩, by simpa using hne⟩

theorem mem_boxPart_iff {grid : Grid} {b : Nat} (hb : 0 < b) {y x : Nat}
    (hy : y < b * b) (hx : x < b * b) (v : Nat) :
    v ∈ (((List.range' (y - y % b) b).flatMap
          (fun y1 => (List.range' (x - x % b) b).map (fun x1 => (y1, x1)))).filter
        (fun p => p.1 ≠ y ∧ p.2 ≠ x)).map (fun p => cellVal grid p.1 p.2) ↔
      ∃ y1 x1, y1 < b * b ∧ x1 < b * b ∧ y1 / b = y / b ∧ x1 / b = x / b ∧
        y1 ≠ y ∧ x1 ≠ x ∧ cellVal grid y1 x1 = v := by
  rw [List.mem_map]
  constructor
  · rintro ⟨p, hp, rfl⟩
    rw [List.mem_filter] at hp
    obtain ⟨hpm, hpc⟩ := hp
    rw [List.mem_flatMap] at hpm
    obtain ⟨y1, hy1, hpm2⟩ := hpm
    rw [List.mem_map] at hpm2
    obtain ⟨x1, hx1, rfl⟩ := hpm2
    rw [sub_mod_eq y b, mem_range'_box hb] at hy1
    rw [sub_mod_eq x b, mem_range'_box hb] at hx1
    have hy1N : y1 < b * b := by
      rw [← Nat.div_lt_iff_lt_mul hb, hy1]
      exact div_lt_of_lt_sq hy
    have hx1N : x1 < b * b := by
      rw [← Nat.div_lt_iff_lt_mul hb, hx1]
      exact div_lt_of_lt_sq hx
    have hpc2 : y1 ≠ y ∧ x1 ≠ x := by simpa using hpc
    exact ⟨y1, x1, hy1N, hx1N, hy1, hx1, hpc2.1, hpc2.2, rfl⟩
  · rintro ⟨y1, x1, hy1N, hx1N, hdy, hdx, hne1, hne2, rfl⟩
    refine ⟨(y1, x1), ?_, rfl⟩
    rw [List.mem_filter]
    constructor
    · rw [List.mem_flatMap]
      refine ⟨y1, ?_, ?_⟩
      · rw [sub_mod_eq y b, mem_range'_box hb]
        exact hdy
      · rw [List.mem_map]
        refine ⟨x1, ?_, rfl⟩
        rw [sub_mod_eq x b, mem_range'_box hb]
        exact hdx
    · simp [hne1, hne2]

/-- Every value of `get_peers grid y x` is the value of some peer cell, and conversely:
the omitted box cells (those sharing the target's row or column) are exactly the ones the
row and column passes already contribute. -/
theorem mem_get_peers_iff {grid : Grid} {b : Nat} (h : SquareGrid grid b) {y x : Nat}
    (hy : y < b * b) (hx : x < b * b) (v : Nat) :
    v ∈ get_peers grid y x ↔
      ∃ y1 x1, IsPeer b y x y1 x1 ∧ cellVal grid y1 x1 = v := by
  have hb : 0 < b := by
    rcases Nat.eq_zero_or_pos b with rfl | hb
    · omega
    · exact hb
  have hbi : isqrt grid.length = b := by rw [h.1, isqrt_mul_self]
  rw [get_peers_def, hbi, Finset.mem_union, Finset.mem_union, List.mem_toFinset,
    List.mem_toFinset, List.mem_toFinset, mem_rowPart_iff h hy, mem_colPart_iff h,
    mem_boxPart_iff hb hy hx]
  constructor
  · rintro ((⟨x1, hx1, hne, hv⟩ | ⟨y1, hy1, hne, hv⟩) | ⟨y1, x1, hy1, hx1, hdy, hdx, hne1, hne2, hv⟩)
    · exact ⟨y, x1, ⟨hy, hx1, fun hc => hne (congrArg Prod.snd hc), Or.inl rfl⟩, hv⟩
    · exact ⟨y1, x, ⟨hy1, hx, fun hc => hne (congrArg Prod.fst hc), Or.inr (Or.inl rfl)⟩, hv⟩
    · exact ⟨y1, x1, ⟨hy1, hx1, fun hc => hne1 (congrArg Prod.fst hc),
        Or.inr (Or.inr ⟨hdy.symm, hdx.symm⟩)⟩, hv⟩
  · rintro ⟨y1, x1, ⟨hy1, hx1, hne, hsg⟩, hv⟩
    rcases hsg with hrow | hcol | ⟨hdy, hdx⟩
    · refine Or.inl (Or.inl ⟨x1, hx1, ?_, ?_⟩)
      · intro hc
        exact hne (by rw [← hrow, hc])
      · rw [hrow]
        exact hv
    · by_cases hyy : y1 = y
      · refine Or.inl (Or.inl ⟨x1, hx1, ?_, ?_⟩)
        · intro hc
          exact hne (by rw [hyy, hc])
        · rw [← hyy]
          exact hv
      · refine Or.inl (Or.inr ⟨y1, hy1, hyy, ?_⟩)
        rw [hcol]
        exact hv
    · by_cases hyy : y1 = y
      · refine Or.inl (Or.inl ⟨x1, hx1, ?_, ?_⟩)
        · intro hc
          exact hne (by rw [hyy, hc])
        · rw [← hyy]
          exact hv
      · by_cases hxx : x1 = x
        · refine Or.inl (Or.inr ⟨y1, hy1, hyy, ?_⟩)
          rw [← hxx]
          exact hv
        · exact Or.inr ⟨y1, x1, hy1, hx1, hdy.symm, hdx.symm, hyy, hxx, hv⟩

theorem mem_rowPeerVals {grid : Grid} {b y x : Nat} (v : Nat) :
    v ∈ rowPeerVals grid b y x ↔ ∃ x1, x1 < b * b ∧ x1 ≠ x ∧ cellVal grid y x1 = v := by
  rw [rowPeerVals, Finset.mem_image]
  constructor
  · rintro ⟨x1, hx1, rfl⟩
    rw [Finset.mem_filter, Finset.mem_range] at hx1
    exact ⟨x1, hx1.1, hx1.2, rfl⟩
  · rintro ⟨x1, hlt, hne, rfl⟩
    exact ⟨x1, by rw [Finset.mem_filter, Finset.mem_range]; exact ⟨hlt, hne⟩, rfl⟩

theorem mem_colPeerVals {grid : Grid} {b y x : Nat} (v : Nat) :
    v ∈ colPeerVals grid b y x ↔ ∃ y1, y1 < b * b ∧ y1 ≠ y ∧ cellVal grid y1 x = v := by
  rw [colPeerVals, Finset.mem_image]
  constructor
  · rintro ⟨y1, hy1, rfl⟩
    rw [Finset.mem_filter, Finset.mem_range] at hy1
    exact ⟨y1, hy1.1, hy1.2, rfl⟩
  · rintro ⟨y1, hlt, hne, rfl⟩
    exact ⟨y1, by rw [Finset.mem_filter, Finset.mem_range]; exact ⟨hlt, hne⟩, rfl⟩

theorem mem_boxPeerVals {grid : Grid} {b y x : Nat} (v : Nat) :
    v ∈ boxPeerVals grid b y x ↔
      ∃ y1 x1, y1 < b * b ∧ x1 < b * b ∧ y1 / b = y / b ∧ x1 / b = x / b ∧
        y1 ≠ y ∧ x1 ≠ x ∧ cellVal grid y1 x1 = v := by
  rw [boxPeerVals, Finset.mem_image]
  constructor
  · rintro ⟨q, hq, rfl⟩
    rw [Finset.mem_filter, Finset.mem_product, Finset.mem_range, Finset.mem_range] at hq
    exact ⟨q.1, q.2, hq.1.1, hq.1.2, hq.2.1, hq.2.2.1, hq.2.2.2.1, hq.2.2.2.2, rfl⟩
  · rintro ⟨y1, x1, h1, h2, h3, h4, h5, h6, rfl⟩
    refine ⟨(y1, x1), ?_, rfl⟩
    rw [Finset.mem_filter, Finset.mem_product, Finset.mem_range, Finset.mem_range]
    exact ⟨⟨h1, h2⟩, h3, h4, h5, h6⟩

/-- C5: for every `N × N` grid (`N = b * b`) and in-range coordinates `(y, x)`,
`get_peers` returns exactly the union of the row values other than column `x`, the
column values other than row `y`, and the box values at cells whose row differs from `y`
and whose column differs from `x`; moreover the result (which may contain `0`) never
excludes a candidate digit `d ∈ [1, N]` that no actual peer holds. -/
theorem get_peers_characterisation {grid : Grid} {b : Nat} (h : SquareGrid grid b)
    {y x : Nat} (hy : y < b * b) (hx : x < b * b) :
    get_peers grid y x =
        rowPeerVals grid b y x ∪ colPeerVals grid b y x ∪ boxPeerVals grid b y x ∧
      ∀ d, 1 ≤ d → d ≤ b * b →
        (∀ y1 x1, IsPeer b y x y1 x1 → cellVal grid y1 x1 ≠ d) →
        d ∉ get_peers grid y x := by
  have hb : 0 < b := by
    rcases Nat.eq_zero_or_pos b with rfl | hb
    · omega
    · exact hb
  have hbi : isqrt grid.length = b := by rw [h.1, isqrt_mul_self]
  constructor
  · apply Finset.ext
    intro v
    rw [get_peers_def, hbi, Finset.mem_union, Finset.mem_union, List.mem_toFinset,
      List.mem_toFinset, List.mem_toFinset, mem_rowPart_iff h hy, mem_colPart_iff h,
      mem_boxPart_iff hb hy hx, Finset.mem_union, Finset.mem_union, mem_rowPeerVals,
      mem_colPeerVals, mem_boxPeerVals]
  · intro d _ _ hnone hd
    obtain ⟨y1, x1, hpeer, hval⟩ := (mem_get_peers_iff h hy hx d).mp hd
    exact hnone y1 x1 hpeer hval

/-- Witness for C5 at a concrete 4×4 grid and the cell `(0, 0)`. -/
theorem get_peers_characterisation_witness :
    SquareGrid [[1, 2, 3, 4], [3, 4, 1, 2], [0, 0, 0, 0], [0, 0, 0, 0]] 2 ∧ 0 < 2 * 2 ∧
      (get_peers [[1, 2, 3, 4], [3, 4, 1, 2], [0, 0, 0, 0], [0, 0, 0, 0]] 0 0 =
          rowPeerVals [[1, 2, 3, 4], [3, 4, 1, 2], [0, 0, 0, 0], [0, 0, 0, 0]] 2 0 0 ∪
            colPeerVals [[1, 2, 3, 4], [3, 4, 1, 2], [0, 0, 0, 0], [0, 0, 0, 0]] 2 0 0 ∪
            boxPeerVals [[1, 2, 3, 4], [3, 4, 1, 2], [0, 0, 0, 0], [0, 0, 0, 0]] 2 0 0 ∧
        ∀ d, 1 ≤ d → d ≤ 2 * 2 →
          (∀ y1 x1, IsPeer 2 0 0 y1 x1 →
            cellVal [[1, 2, 3, 4], [3, 4, 1, 2], [0, 0, 0, 0], [0, 0, 0, 0]] y1 x1 ≠ d) →
          d ∉ get_peers [[1, 2, 3, 4], [3, 4, 1, 2], [0, 0, 0, 0], [0, 0, 0, 0]] 0 0) :=
  ⟨⟨rfl, by decide⟩, by decide,
    get_peers_characterisation ⟨rfl, by decide⟩ (by decide) (by decide)⟩

/-! ## Invariants for the soundness of `solve` (claim C1) -/

/-- All cell values are at most `N` (empty cells hold `0`, so values lie in `[0, N]`). -/
def InRange (grid : Grid) (b : Nat) : Prop := ∀ y x, cellVal grid y x ≤ b * b

/-- No two distinct cells of a common group hold the same non-zero value. -/
def PairwiseOK (grid : Grid) (b : Nat) : Prop :=
  ∀ y1 x1 y2 x2, y1 < b * b → x1 < b * b → y2 < b * b → x2 < b * b →
    (y1, x1) ≠ (y2, x2) → SameGroup b y1 x1 y2 x2 →
    cellVal grid y1 x1 ≠ 0 → cellVal grid y1 x1 ≠ cellVal grid y2 x2

/-- Every in-bounds cell is non-empty. -/
def Filled (grid : Grid) : Prop :=
  ∀ y x, y < grid.length → x < (grid.getD y []).length → cellVal grid y x ≠ 0

/-- Every in-bounds cell strictly before the cursor `(y0, x0)` in scan order is
non-empty. -/
def NoEmptyBefore (grid : Grid) (y0 x0 : Nat) : Prop :=
  ∀ y x, y < grid.length → x < (grid.getD y []).length → ScanLt y x y0 x0 →
    cellVal grid y x ≠ 0

theorem sameGroup_symm {b y1 x1 y2 x2 : Nat} (h : SameGroup b y1 x1 y2 x2) :
    SameGroup b y2 x2 y1 x1 := by
  rcases h with h | h | ⟨h1, h2⟩
  · exact Or.inl h.symm
  · exact Or.inr (Or.inl h.symm)
  · exact Or.inr (Or.inr ⟨h1.symm, h2.symm⟩)

theorem scan_total (y x y0 x0 : Nat) : ScanLt y x y0 x0 ∨ ScanLe y0 x0 y x := by
  rw [ScanLt, ScanLe]
  omega

theorem two_le_count_map {α : Type} (f : α → Nat) {cl : List α} {p q : α}
    (hp : p ∈ cl) (hq : q ∈ cl) (hne : p ≠ q) {v : Nat} (hfp : f p = v) (hfq : f q = v) :
    2 ≤ (cl.map f).count v := by
  obtain ⟨s, t, rfl⟩ := List.append_of_mem hp
  have hq2 : q ∈ s ∨ q ∈ t := by
    rcases List.mem_append.mp hq with hmem | hmem
    · exact Or.inl hmem
    · rcases List.mem_cons.mp hmem with hmem | hmem
      · exact absurd hmem.symm hne
      · exact Or.inr hmem
  rw [List.map_append, List.map_cons, hfp, List.count_append, List.count_cons_self]
  rcases hq2 with hmem | hmem
  · have h1 : 0 < (s.map f).count v := by
      rw [List.count_pos_iff]
      exact hfq ▸ List.mem_map_of_mem f hmem
    omega
  · have h1 : 0 < (t.map f).count v := by
      rw [List.count_pos_iff]
      exact hfq ▸ List.mem_map_of_mem f hmem
    omega

/-- Extracting a common group coordinate list for two cells sharing a group. -/
theorem common_group_of_sameGroup {b y1 x1 y2 x2 : Nat} (hb : 0 < b)
    (h1 : y1 < b * b) (h2 : x1 < b * b) (h3 : y2 < b * b) (h4 : x2 < b * b)
    (hsg : SameGroup b y1 x1 y2 x2) :
    ∃ cl ∈ groupCoords b, (y1, x1) ∈ cl ∧ (y2, x2) ∈ cl := by
  rcases hsg with hr | hc | ⟨hdy, hdx⟩
  · refine ⟨rowCoords (b * b) y1, ?_, ?_, ?_⟩
    · rw [groupCoords]
      exact List.mem_append.mpr (Or.inl (List.mem_append.mpr (Or.inl
        (List.mem_map_of_mem _ (List.mem_range.mpr h1)))))
    · exact mem_rowCoords.mpr ⟨rfl, h2⟩
    · exact mem_rowCoords.mpr ⟨hr.symm, h4⟩
  · refine ⟨colCoords (b * b) x1, ?_, ?_, ?_⟩
    · rw [groupCoords]
      exact List.mem_append.mpr (Or.inl (List.mem_append.mpr (Or.inr
        (List.mem_map_of_mem _ (List.mem_range.mpr h2)))))
    · exact mem_colCoords.mpr ⟨rfl, h1⟩
    · exact mem_colCoords.mpr ⟨hc.symm, h3⟩
  · refine ⟨boxCoords b (y1 / b) (x1 / b), ?_, ?_, ?_⟩
    · rw [groupCoords]
      refine List.mem_append.mpr (Or.inr ?_)
      rw [List.mem_flatMap]
      exact ⟨y1 / b, List.mem_range.mpr (div_lt_of_lt_sq h1),
        List.mem_map.mpr ⟨x1 / b, List.mem_range.mpr (div_lt_of_lt_sq h2), rfl⟩⟩
    · exact (mem_boxCoords hb).mpr ⟨rfl, rfl⟩
    · exact (mem_boxCoords hb).mpr ⟨hdy.symm, hdx.symm⟩

/-- A structurally valid grid satisfies the coordinate-wise no-duplicate invariant. -/
theorem pairwiseOK_of_valid {grid : Grid} {b : Nat} (h : SquareGrid grid b)
    (hv : is_valid_puzzle grid = true) : PairwiseOK grid b := by
  intro y1 x1 y2 x2 h1 h2 h3 h4 hne hsg hnz heq
  have hb : 0 < b := by
    rcases Nat.eq_zero_or_pos b with rfl | hb
    · omega
    · exact hb
  obtain ⟨cl, hcl, hp, hq⟩ := common_group_of_sameGroup hb h1 h2 h3 h4 hsg
  have hmem : cl.map (fun p => cellVal grid p.1 p.2) ∈ grid ++ cols grid ++ boxes grid := by
    rw [groups_eq_coords h]
    exact List.mem_map_of_mem _ hcl
  have hcount := (is_valid_puzzle_iff grid).mp hv _ hmem (cellVal grid y1 x1) hnz
  have h2c := two_le_count_map (fun p => cellVal grid p.1 p.2) hp hq hne rfl heq.symm
  simp only [] at h2c
  omega

/-! ## The invariants are preserved by the solver's cell writes -/

theorem setCell_out_of_bounds {grid : Grid} {y x : Nat} (v : Nat)
    (h : ¬(y < grid.length ∧ x < (grid.getD y []).length)) : setCell grid y x v = grid := by
  rcases Nat.lt_or_ge y grid.length with hy | hy
  · have hx : (grid.getD y []).length ≤ x := by omega
    rw [setCell, List.set_eq_of_length_le hx, getD_row_eq hy, set_getElem_eq _ y hy]
  · rw [setCell, List.set_eq_of_length_le hy]

theorem rowlen_setCell (grid : Grid) (y x v y1 : Nat) :
    ((setCell grid y x v).getD y1 []).length = (grid.getD y1 []).length := by
  rcases eq_or_ne y y1 with rfl | hne
  · rcases Nat.lt_or_ge y grid.length with hy | hy
    · rw [row_setCell_eq x v hy, List.length_set]
    · rw [setCell, List.set_eq_of_length_le hy]
  · rw [row_setCell_ne grid x v hne]

theorem squareGrid_setCell {grid : Grid} {b : Nat} (h : SquareGrid grid b) (y x d : Nat) :
    SquareGrid (setCell grid y x d) b := by
  refine ⟨by rw [length_setCell]; exact h.1, ?_⟩
  intro row hrow
  rcases Nat.lt_or_ge y grid.length with hy | hy
  · rw [setCell] at hrow
    rcases List.mem_or_eq_of_mem_set hrow with hmem | heq
    · exact h.2 row hmem
    · rw [heq, List.length_set]
      exact row_length_eq h hy
  · rw [setCell, List.set_eq_of_length_le hy] at hrow
    exact h.2 row hrow

theorem inRange_setCell {grid : Grid} {b : Nat} (hr : InRange grid b) {d : Nat}
    (hd : d ≤ b * b) (y x : Nat) : InRange (setCell grid y x d) b := by
  intro y1 x1
  by_cases e : (y1, x1) = (y, x)
  · obtain ⟨hey, hex⟩ : y1 = y ∧ x1 = x :=
      ⟨congrArg Prod.fst e, congrArg Prod.snd e⟩
    subst hey
    subst hex
    by_cases hin : y1 < grid.length ∧ x1 < (grid.getD y1 []).length
    · rw [cellVal_setCell_self d hin.1 hin.2]
      exact hd
    · rw [setCell_out_of_bounds d hin]
      exact hr y1 x1
  · rw [cellVal_setCell_ne d e]
    exact hr y1 x1

theorem pairwiseOK_setCell {grid : Grid} {b : Nat} (h : SquareGrid grid b)
    (hp : PairwiseOK grid b) {y x d : Nat} (hy : y < b * b) (hx : x < b * b)
    (hz : cellVal grid y x = 0) (hd : d ≠ 0) (hpeers : d ∉ get_peers grid y x) :
    PairwiseOK (setCell grid y x d) b := by
  have hyg : y < grid.length := by rw [h.1]; exact hy
  have hxg : x < (grid.getD y []).length := by rw [row_length_eq h hyg]; exact hx
  have hval : ∀ y1 x1, IsPeer b y x y1 x1 → cellVal grid y1 x1 ≠ d := by
    intro y1 x1 hpeer hvd
    exact hpeers ((mem_get_peers_iff h hy hx d).mpr ⟨y1, x1, hpeer, hvd⟩)
  intro y1 x1 y2 x2 h1 h2 h3 h4 hne hsg hnz
  by_cases e1 : (y1, x1) = (y, x)
  · have e2 : (y2, x2) ≠ (y, x) := fun hc => hne (e1.trans hc.symm)
    obtain ⟨hey, hex⟩ : y1 = y ∧ x1 = x :=
      ⟨congrArg Prod.fst e1, congrArg Prod.snd e1⟩
    rw [hey, hex, cellVal_setCell_self d hyg hxg, cellVal_setCell_ne d e2]
    intro hc
    apply hval y2 x2 ⟨h3, h4, e2, ?_⟩ hc.symm
    rw [← hey, ← hex]
    exact hsg
  · by_cases e2 : (y2, x2) = (y, x)
    · obtain ⟨hey, hex⟩ : y2 = y ∧ x2 = x :=
        ⟨congrArg Prod.fst e2, congrArg Prod.snd e2⟩
      rw [cellVal_setCell_ne d e1] at hnz ⊢
      rw [hey, hex, cellVal_setCell_self d hyg hxg]
      intro hc
      apply hval y1 x1 ⟨h1, h2, e1, ?_⟩ hc
      apply sameGroup_symm
      rw [← hey, ← hex]
      exact hsg
    · rw [cellVal_setCell_ne d e1] at hnz ⊢
      rw [cellVal_setCell_ne d e2]
      exact hp y1 x1 y2 x2 h1 h2 h3 h4 hne hsg hnz

theorem noEmptyBefore_found {grid : Grid} {y0 x0 y x : Nat}
    (hne : NoEmptyBefore grid y0 x0) (hfe : findEmpty grid y0 x0 = some (y, x)) :
    NoEmptyBefore grid y x := by
  obtain ⟨_, _, _, _, hfirst⟩ := (findEmpty_spec grid y0 x0).1 y x hfe
  intro y1 x1 h1 h2 hlt
  rcases scan_total y1 x1 y0 x0 with hbefore | hafter
  · exact hne y1 x1 h1 h2 hbefore
  · exact hfirst y1 x1 h1 h2 hafter hlt

theorem noEmptyBefore_setCell {grid : Grid} {y x : Nat} (d : Nat)
    (hne : NoEmptyBefore grid y x) : NoEmptyBefore (setCell grid y x d) y x := by
  intro y1 x1 h1 h2 hlt
  have hne1 : (y1, x1) ≠ (y, x) := by
    intro hc
    rw [Prod.mk.injEq] at hc
    rcases hlt with hlt1 | ⟨hlt1, hlt2⟩ <;> omega
  rw [cellVal_setCell_ne d hne1]
  apply hne y1 x1 ?_ ?_ hlt
  · rwa [length_setCell] at h1
  · rwa [rowlen_setCell] at h2

theorem filled_of_findEmpty_none {grid : Grid} {y0 x0 : Nat}
    (hne : NoEmptyBefore grid y0 x0) (hfe : findEmpty grid y0 x0 = none) : Filled grid := by
  intro y x h1 h2
  rcases scan_total y x y0 x0 with hbefore | hafter
  · exact hne y x h1 h2 hbefore
  · exact (findEmpty_spec grid y0 x0).2 hfe y x h1 h2 hafter

/-- Digit-loop step of the soundness induction: all invariants survive a successful
iteration, since the written digit avoids the cell's peer set. -/
theorem tryDigits_true_invariants {fuel b : Nat}
    (IH : ∀ grid y0 x0 g, SquareGrid grid b → InRange grid b → PairwiseOK grid b →
      NoEmptyBefore grid y0 x0 → solveF fuel grid y0 x0 = some (true, g) →
      SquareGrid g b ∧ InRange g b ∧ PairwiseOK g b ∧ Filled g) :
    ∀ ds grid0 s y x g, SquareGrid grid0 b → InRange grid0 b → PairwiseOK grid0 b →
      NoEmptyBefore grid0 y x → y < b * b → x < b * b → cellVal grid0 y x = 0 →
      (∀ d, setCell s y x d = setCell grid0 y x d) →
      (∀ d ∈ ds, 1 ≤ d ∧ d ≤ b * b) →
      tryDigits (solveF fuel) s y x (get_peers grid0 y x) ds = some (true, g) →
      SquareGrid g b ∧ InRange g b ∧ PairwiseOK g b ∧ Filled g := by
  intro ds
  induction ds with
  | nil =>
    intro grid0 s y x g _ _ _ _ _ _ _ _ _ htry
    rw [tryDigits_nil] at htry
    exact absurd htry (by simp)
  | cons d rest ih =>
    intro grid0 s y x g h hr hp hneb hy hx hz heq hds htry
    rw [tryDigits_cons] at htry
    by_cases hd : d ∈ get_peers grid0 y x
    · rw [if_pos hd] at htry
      exact ih grid0 s y x g h hr hp hneb hy hx hz heq
        (fun d1 hd1 => hds d1 (by simp [hd1])) htry
    · rw [if_neg hd] at htry
      obtain ⟨hd1, hd2⟩ := hds d (by simp)
      cases hs : solveF fuel (setCell s y x d) y x with
      | none => rw [hs] at htry; exact (nomatch htry)
      | some p =>
        obtain ⟨r, g1⟩ := p
        rw [hs] at htry
        rw [heq d] at hs
        cases r
        · have hg1 : g1 = setCell grid0 y x d := solveF_false_eq fuel _ y x g1 hs
          refine ih grid0 g1 y x g h hr hp hneb hy hx hz ?_
            (fun d1 hd1 => hds d1 (by simp [hd1])) htry
          intro d1
          rw [hg1, setCell_setCell]
        · have hgg : g1 = g := by
            injection htry with h1
            injection h1 with _ h2
          subst hgg
          exact IH (setCell grid0 y x d) y x g1
            (squareGrid_setCell h y x d)
            (inRange_setCell hr hd2 y x)
            (pairwiseOK_setCell h hp hy hx hz (by omega) hd)
            (noEmptyBefore_setCell d hneb)
            hs

/-- Soundness induction: a successful `solve` preserves well-formedness, range and
no-duplicate invariants, and leaves no empty cell. -/
theorem solveF_true_invariants {b : Nat} : ∀ fuel grid y0 x0 g,
    SquareGrid grid b → InRange grid b → PairwiseOK grid b → NoEmptyBefore grid y0 x0 →
    solveF fuel grid y0 x0 = some (true, g) →
    SquareGrid g b ∧ InRange g b ∧ PairwiseOK g b ∧ Filled g := by
  intro fuel
  induction fuel with
  | zero =>
    intro grid y0 x0 g _ _ _ _ hsv
    rw [solveF_zero] at hsv
    exact (nomatch hsv)
  | succ fuel ih =>
    intro grid y0 x0 g h hr hp hneb hsv
    rw [solveF_succ] at hsv
    cases hfe : findEmpty grid y0 x0 with
    | none =>
      rw [hfe] at hsv
      have hgg : grid = g := by
        injection hsv with h1
        injection h1 with _ h2
      subst hgg
      exact ⟨h, hr, hp, filled_of_findEmpty_none hneb hfe⟩
    | some yx =>
      obtain ⟨y, x⟩ := yx
      rw [hfe] at hsv
      obtain ⟨_, hyb, hxb, hz, _⟩ := (findEmpty_spec grid y0 x0).1 y x hfe
      have hy : y < b * b := by rw [← h.1]; exact hyb
      have hx : x < b * b := by rw [← row_length_eq h hyb]; exact hxb
      refine tryDigits_true_invariants ih _ grid grid y x g h hr hp
        (noEmptyBefore_found hneb hfe) hy hx hz (fun d => rfl) ?_ hsv
      intro d hd
      rw [List.mem_range'_1] at hd
      have hN := h.1
      exact ⟨by omega, by omega⟩

theorem mem_groupCoords_props {b : Nat} {cl : List (Nat × Nat)} (hb : 0 < b)
    (hcl : cl ∈ groupCoords b) :
    (∀ p ∈ cl, p.1 < b * b ∧ p.2 < b * b) ∧ cl.Nodup ∧
      (∀ p ∈ cl, ∀ q ∈ cl, SameGroup b p.1 p.2 q.1 q.2) := by
  rw [groupCoords] at hcl
  rcases List.mem_append.mp hcl with h12 | h3
  · rcases List.mem_append.mp h12 with h1 | h2
    · obtain ⟨y, hy, rfl⟩ := List.mem_map.mp h1
      rw [List.mem_range] at hy
      refine ⟨?_, nodup_rowCoords _ y, ?_⟩
      · intro p hp
        obtain ⟨hp1, hp2⟩ := mem_rowCoords.mp hp
        exact ⟨hp1 ▸ hy, hp2⟩
      · intro p hp q hq
        exact Or.inl ((mem_rowCoords.mp hp).1.trans (mem_rowCoords.mp hq).1.symm)
    · obtain ⟨x, hx, rfl⟩ := List.mem_map.mp h2
      rw [List.mem_range] at hx
      refine ⟨?_, nodup_colCoords _ x, ?_⟩
      · intro p hp
        obtain ⟨hp1, hp2⟩ := mem_colCoords.mp hp
        exact ⟨hp2, hp1 ▸ hx⟩
      · intro p hp q hq
        exact Or.inr (Or.inl ((mem_colCoords.mp hp).1.trans (mem_colCoords.mp hq).1.symm))
  · obtain ⟨bi, hbi, hcl2⟩ := List.mem_flatMap.mp h3
    obtain ⟨bj, hbj, rfl⟩ := List.mem_map.mp hcl2
    rw [List.mem_range] at hbi hbj
    refine ⟨?_, nodup_boxCoords b bi bj, ?_⟩
    · intro p hp
      obtain ⟨hp1, hp2⟩ := (mem_boxCoords hb).mp hp
      constructor
      · rw [← Nat.div_lt_iff_lt_mul hb, hp1]
        exact hbi
      · rw [← Nat.div_lt_iff_lt_mul hb, hp2]
        exact hbj
    · intro p hp q hq
      obtain ⟨hp1, hp2⟩ := (mem_boxCoords hb).mp hp
      obtain ⟨hq1, hq2⟩ := (mem_boxCoords hb).mp hq
      exact Or.inr (Or.inr ⟨hp1.trans hq1.symm, hp2.trans hq2.symm⟩)

/-- Pigeonhole finish: a filled, in-range, duplicate-free square grid is solved. -/
theorem is_solved_of_invariants {grid : Grid} {b : Nat} (h : SquareGrid grid b)
    (hr : InRange grid b) (hp : PairwiseOK grid b) (hf : Filled grid) :
    is_solved grid = true := by
  rcases Nat.eq_zero_or_pos b with rfl | hb
  · have hnil : grid = [] := by
      cases grid with
      | nil => rfl
      | cons r t => exact absurd h.1 (by simp)
    rw [hnil]
    rfl
  · rw [is_solved_iff h]
    intro cl hcl
    obtain ⟨hbnd, hnodup, hsg⟩ := mem_groupCoords_props hb hcl
    have hlen : (cl.map (fun p => cellVal grid p.1 p.2)).length = b * b := by
      rw [List.length_map, mem_groupCoords_length hcl]
    have hvals : ∀ v ∈ cl.map (fun p => cellVal grid p.1 p.2), v ∈ all_digits (b * b) := by
      intro v hv
      obtain ⟨p, hpcl, rfl⟩ := List.mem_map.mp hv
      obtain ⟨hp1, hp2⟩ := hbnd p hpcl
      have hyg : p.1 < grid.length := by rw [h.1]; exact hp1
      have hnz : cellVal grid p.1 p.2 ≠ 0 :=
        hf p.1 p.2 hyg (by rw [row_length_eq h hyg]; exact hp2)
      rw [mem_all_digits]
      have := hr p.1 p.2
      exact ⟨by omega, by omega⟩
    have hnodupv : (cl.map (fun p => cellVal grid p.1 p.2)).Nodup := by
      refine (List.pairwise_map).mpr (List.Pairwise.imp_of_mem ?_ hnodup)
      intro p q hpm hqm hne
      obtain ⟨hp1, hp2⟩ := hbnd p hpm
      obtain ⟨hq1, hq2⟩ := hbnd q hqm
      have hyg : p.1 < grid.length := by rw [h.1]; exact hp1
      have hnz : cellVal grid p.1 p.2 ≠ 0 :=
        hf p.1 p.2 hyg (by rw [row_length_eq h hyg]; exact hp2)
      refine hp p.1 p.2 q.1 q.2 hp1 hp2 hq1 hq2 ?_ (hsg p hpm q hqm) hnz
      intro hc
      apply hne
      rw [← @Prod.mk.eta _ _ p, ← @Prod.mk.eta _ _ q]
      exact hc
    have hsub : (cl.map (fun p => cellVal grid p.1 p.2)).toFinset ⊆ all_digits (b * b) :=
      fun v hv => hvals v (List.mem_toFinset.mp hv)
    have hcard : (all_digits (b * b)).card ≤
        (cl.map (fun p => cellVal grid p.1 p.2)).toFinset.card := by
      rw [List.card_toFinset, List.dedup_eq_self.mpr hnodupv, hlen, all_digits,
        List.card_toFinset, List.dedup_eq_self.mpr (List.nodup_range' 1 _), List.length_range']
    exact (toFinset_eq_all_digits_iff hlen).mp (Finset.eq_of_subset_of_card_le hsub hcard)

/-- Counterexample for C1 as stated.  The first grid (all cells `1`, values in range but
invalid) and the second grid (structurally valid but with the out-of-range clue `7`) are
both fully filled, so `solve` returns true immediately, yet `is_solved` is false —
soundness fails without a validity and a range precondition on the input. -/
theorem solve_true_sound_counterexample :
    ((solve [[1, 1, 1, 1], [1, 1, 1, 1], [1, 1, 1, 1], [1, 1, 1, 1]]).1 = true ∧
      is_solved (solve [[1, 1, 1, 1], [1, 1, 1, 1], [1, 1, 1, 1], [1, 1, 1, 1]]).2 = false) ∧
    (is_valid_puzzle [[7, 2, 3, 4], [3, 4, 1, 2], [2, 1, 4, 3], [4, 3, 2, 1]] = true ∧
      (solve [[7, 2, 3, 4], [3, 4, 1, 2], [2, 1, 4, 3], [4, 3, 2, 1]]).1 = true ∧
      is_solved (solve [[7, 2, 3, 4], [3, 4, 1, 2], [2, 1, 4, 3], [4, 3, 2, 1]]).2 = false) := by
  constructor
  · constructor
    · decide
    · decide
  · refine ⟨by decide, by decide, by decide⟩

/-- C1 (amended): for every `N × N` grid whose cell values lie in `[0, N]` and which
`is_valid_puzzle` accepts, if `solve(grid)` returns true then `is_solved` holds on the
grid as it stands after the call. -/
theorem solve_true_sound {grid : Grid} {b : Nat} (h : SquareGrid grid b)
    (hr : InRange grid b) (hv : is_valid_puzzle grid = true)
    (ht : (solve grid).1 = true) : is_solved (solve grid).2 = true := by
  rw [solve] at ht ⊢
  cases hs : solveF (emptyCount grid + 1) grid 0 0 with
  | none =>
    rw [hs] at ht
    simp at ht
  | some p =>
    obtain ⟨r, g⟩ := p
    rw [hs] at ht
    cases r
    · simp at ht
    · have hneb : NoEmptyBefore grid 0 0 := by
        intro y x _ _ hlt
        rcases hlt with hlt1 | ⟨_, hlt2⟩ <;> omega
      obtain ⟨hg1, hg2, hg3, hg4⟩ :=
        solveF_true_invariants _ grid 0 0 g h hr (pairwiseOK_of_valid h hv) hneb hs
      exact is_solved_of_invariants hg1 hg2 hg3 hg4

theorem inRange_of_forall {grid : Grid} {b : Nat}
    (h : ∀ row ∈ grid, ∀ v ∈ row, v ≤ b * b) : InRange grid b := by
  intro y x
  rw [cellVal]
  rcases Nat.lt_or_ge y grid.length with hy | hy
  · rcases Nat.lt_or_ge x (grid.getD y []).length with hx | hx
    · have hmem : (grid.getD y []).getD x 0 ∈ grid.getD y [] := by
        rw [List.getD_eq_getElem _ 0 hx]
        exact List.getElem_mem hx
      refine h _ ?_ _ hmem
      rw [getD_row_eq hy]
      exact List.getElem_mem hy
    · rw [List.getD_eq_getElem?_getD, List.getElem?_eq_none hx]
      simp
  · rw [List.getD_eq_getElem?_getD (grid : List (List Nat)) y [], List.getElem?_eq_none hy]
    simp [List.getD]

/-- Witness for the amended C1 at a concrete already-solved 4×4 grid. -/
theorem solve_true_sound_witness :
    SquareGrid [[1, 2, 3, 4], [3, 4, 1, 2], [2, 1, 4, 3], [4, 3, 2, 1]] 2 ∧
      InRange [[1, 2, 3, 4], [3, 4, 1, 2], [2, 1, 4, 3], [4, 3, 2, 1]] 2 ∧
      is_valid_puzzle [[1, 2, 3, 4], [3, 4, 1, 2], [2, 1, 4, 3], [4, 3, 2, 1]] = true ∧
      (solve [[1, 2, 3, 4], [3, 4, 1, 2], [2, 1, 4, 3], [4, 3, 2, 1]]).1 = true ∧
      is_solved (solve [[1, 2, 3, 4], [3, 4, 1, 2], [2, 1, 4, 3], [4, 3, 2, 1]]).2 = true :=
  ⟨⟨rfl, by decide⟩, inRange_of_forall (by decide), by decide, by decide,
    @solve_true_sound [[1, 2, 3, 4], [3, 4, 1, 2], [2, 1, 4, 3], [4, 3, 2, 1]] 2
      ⟨rfl, by decide⟩ (inRange_of_forall (by decide)) (by decide) (by decide)⟩

/-! ## File format claims: C3, C4, C8 -/

/-- C3 (code bug): `write_grid` then `read_grid` on the 1×1 grid `[[1]]` yields the grid
of digit *characters* `[['1']]`, not the original integer grid `[[1]]` — the source
appends the character `c` instead of `int(c)`, contradicting its own `RawGrid =
list[list[int]]` return annotation.  The values are recoverable by converting each digit
character back to its numeric value. -/
theorem read_grid_returns_chars :
    write_grid_content [[1]] = ['1', '\n', '1'] ∧
      read_grid (write_grid_content [[1]]) = Except.ok [['1']] ∧
      [['1']].map (fun row => row.map (fun ch => ch.toNat - 48)) = [[1]] := by
  refine ⟨rfl, rfl, ?_⟩
  decide

/-- Counterexample for C4 as stated: a valid 1×1 encoding `"11"` parses, but the same
file preceded by a single leading space fails with the width error — the width is taken
from the literal first character `content[0]`, not from the first non-whitespace
character. -/
theorem read_grid_width_counterexample :
    read_grid ['1', '1'] = Except.ok [['1']] ∧
      read_grid [' ', '1', '1'] = Except.error ReadErr.badWidth := ⟨rfl, rfl⟩

theorem collectDigits_filter (width : Nat) :
    ∀ rest : List Char, collectDigits width rest =
      collectDigits width (rest.filter (fun ch => !pyIsSpace ch)) := by
  intro rest
  induction rest with
  | nil => rfl
  | cons ch cs ih =>
    by_cases hsp : pyIsSpace ch = true
    · rw [collectDigits, if_pos hsp, List.filter_cons]
      have : (!pyIsSpace ch) = false := by rw [hsp]; rfl
      rw [this]
      simpa using ih
    · have hsp0 : pyIsSpace ch = false := by simpa using hsp
      have hsp2 : (!pyIsSpace ch) = true := by rw [hsp0]; rfl
      rw [collectDigits, if_neg hsp, List.filter_cons, hsp2]
      simp only [if_true]
      rw [collectDigits, if_neg hsp]
      by_cases hv : isValidDigit width ch = true
      · rw [if_pos hv, if_pos hv, ih]
      · rw [if_neg hv, if_neg hv]

theorem read_grid_digit {c : Char} (hc : c.isDigit = true) (rest : List Char) :
    read_grid (c :: rest) =
      match collectDigits (c.toNat - 48) rest with
      | Except.error e => Except.error e
      | Except.ok ds =>
        if ds.length = (c.toNat - 48) * (c.toNat - 48)
        then Except.ok (split_list ds (c.toNat - 48))
        else Except.error (ReadErr.wrongCount ds.length ((c.toNat - 48) * (c.toNat - 48))) := by
  rw [read_grid, if_pos hc]

/-- C4 (amended): the grid width is determined by the literal first character of the
file, which must itself be a decimal digit; whitespace anywhere among the subsequent
characters is ignored entirely, and a file with leading whitespace fails with the width
error rather than being parsed. -/
theorem read_grid_width_amended {c : Char} (hc : c.isDigit = true) (rest : List Char)
    (hw : 1 ≤ c.toNat - 48) :
    read_grid (c :: rest) = read_grid (c :: rest.filter (fun ch => !pyIsSpace ch)) ∧
      (∀ w, pyIsSpace w = true → read_grid (w :: c :: rest) = Except.error ReadErr.badWidth) ∧
      (∀ g, read_grid (c :: rest) = Except.ok g → g.length = c.toNat - 48) := by
  refine ⟨?_, ?_, ?_⟩
  · rw [read_grid_digit hc, read_grid_digit hc, collectDigits_filter]
  · intro w hwsp
    have hrange : ¬(48 ≤ w.toNat ∧ w.toNat ≤ 57) := by
      simp [pyIsSpace] at hwsp
      omega
    have hwd : w.isDigit = false := by
      cases hb : w.isDigit
      · rfl
      · refine absurd ?_ hrange
        simp [Char.isDigit] at hb
        exact ⟨hb.1, hb.2⟩
    rw [read_grid, if_neg (by rw [hwd]; exact fun hcon => nomatch hcon)]
  · intro g hg
    rw [read_grid_digit hc] at hg
    cases hcd : collectDigits (c.toNat - 48) rest with
    | error e => rw [hcd] at hg; exact (nomatch hg)
    | ok ds =>
      rw [hcd] at hg
      simp only [] at hg
      by_cases hlen : ds.length = (c.toNat - 48) * (c.toNat - 48)
      · rw [if_pos hlen] at hg
        injection hg with hg2
        rw [← hg2, split_list, List.length_map, List.length_range', hlen, steps_count]
      · rw [if_neg hlen] at hg
        exact (nomatch hg)

/-- Witness for the amended C4 at the concrete file content `"2 1 2\n0 0"`. -/
theorem read_grid_width_amended_witness :
    Char.isDigit '2' = true ∧ 1 ≤ Char.toNat '2' - 48 ∧
      (read_grid ('2' :: " 1 2\n0 0".toList) =
          read_grid ('2' :: (" 1 2\n0 0".toList.filter (fun ch => !pyIsSpace ch))) ∧
        (∀ w, pyIsSpace w = true →
          read_grid (w :: '2' :: " 1 2\n0 0".toList) = Except.error ReadErr.badWidth) ∧
        (∀ g, read_grid ('2' :: " 1 2\n0 0".toList) = Except.ok g →
          g.length = Char.toNat '2' - 48)) :=
  ⟨by decide, by decide, read_grid_width_amended (by decide) _ (by decide)⟩

/-- Counterexample for C8 as stated: `read_grid` can also raise outside the two claimed
situations — a file whose first character is not a digit raises the width error (a
`ValueError` from `int(content[0])`), and an empty file raises an `IndexError`. -/
theorem read_grid_errors_counterexample :
    read_grid ['x'] = Except.error ReadErr.badWidth ∧
      read_grid [] = Except.error ReadErr.emptyFile := ⟨rfl, rfl⟩

theorem collectDigits_eq (width : Nat) :
    ∀ rest : List Char, collectDigits width rest =
      match rest.find? (fun ch => !pyIsSpace ch && !isValidDigit width ch) with
      | some ch => Except.error (ReadErr.invalidChar ch)
      | none => Except.ok (rest.filter (fun ch => !pyIsSpace ch)) := by
  intro rest
  induction rest with
  | nil => rfl
  | cons ch cs ih =>
    by_cases hsp : pyIsSpace ch = true
    · have hpred : (!pyIsSpace ch && !isValidDigit width ch) = false := by
        rw [hsp]
        rfl
      rw [collectDigits, if_pos hsp, List.find?_cons, hpred, List.filter_cons]
      have : (!pyIsSpace ch) = false := by rw [hsp]; rfl
      rw [this]
      simpa using ih
    · have hsp2 : pyIsSpace ch = false := by simpa using hsp
      by_cases hv : isValidDigit width ch = true
      · have hpred : (!pyIsSpace ch && !isValidDigit width ch) = false := by
          rw [hsp2, hv]
          rfl
        rw [collectDigits, if_neg hsp, if_pos hv, List.find?_cons, hpred, List.filter_cons,
          hsp2]
        simp only [Bool.not_false, if_true]
        rw [ih]
        cases cs.find? (fun ch => !pyIsSpace ch && !isValidDigit width ch) with
        | some ch2 => rfl
        | none => rfl
      · have hv2 : isValidDigit width ch = false := by simpa using hv
        have hpred : (!pyIsSpace ch && !isValidDigit width ch) = true := by
          rw [hsp2, hv2]
          rfl
        rw [collectDigits, if_neg hsp, if_neg hv, List.find?_cons, hpred]

/-- C8 (amended): for a non-empty file whose first character is a decimal digit with
value `width ≥ 1`, `read_grid` raises in exactly two situations — `IOError` carrying the
first non-whitespace character outside `[0, width]`, else `ValueError` carrying the
digit count when it differs from `width²` — and otherwise returns the complete grid; no
partial grid is ever produced.  (On an empty file, or when the first character is not a
digit, it instead fails with an `IndexError` or a `ValueError` from `int`.) -/
theorem read_grid_error_cases {c : Char} (hc : c.isDigit = true) (rest : List Char)
    (_hw : 1 ≤ c.toNat - 48) :
    read_grid (c :: rest) =
      match rest.find? (fun ch => !pyIsSpace ch && !isValidDigit (c.toNat - 48) ch) with
      | some ch => Except.error (ReadErr.invalidChar ch)
      | none =>
        if (rest.filter (fun ch => !pyIsSpace ch)).length = (c.toNat - 48) * (c.toNat - 48)
        then Except.ok (split_list (rest.filter (fun ch => !pyIsSpace ch)) (c.toNat - 48))
        else Except.error (ReadErr.wrongCount (rest.filter (fun ch => !pyIsSpace ch)).length
          ((c.toNat - 48) * (c.toNat - 48))) := by
  rw [read_grid_digit hc, collectDigits_eq]
  cases rest.find? (fun ch => !pyIsSpace ch && !isValidDigit (c.toNat - 48) ch) with
  | some ch => rfl
  | none => simp only []

/-- Witness for the amended C8 at the concrete file content `"2 1 9"`. -/
theorem read_grid_error_cases_witness :
    Char.isDigit '2' = true ∧ 1 ≤ Char.toNat '2' - 48 ∧
      read_grid ('2' :: " 1 9".toList) =
        (match " 1 9".toList.find?
            (fun ch => !pyIsSpace ch && !isValidDigit (Char.toNat '2' - 48) ch) with
        | some ch => Except.error (ReadErr.invalidChar ch)
        | none =>
          if (" 1 9".toList.filter (fun ch => !pyIsSpace ch)).length =
              (Char.toNat '2' - 48) * (Char.toNat '2' - 48)
          then Except.ok (split_list (" 1 9".toList.filter (fun ch => !pyIsSpace ch))
            (Char.toNat '2' - 48))
          else Except.error (ReadErr.wrongCount
            (" 1 9".toList.filter (fun ch => !pyIsSpace ch)).length
            ((Char.toNat '2' - 48) * (Char.toNat '2' - 48)))) :=
  ⟨by decide, by decide, read_grid_error_cases (by decide) _ (by decide)⟩

end Sudoku
